import Mathlib

/-!
Shallow embedding of the concert REST server (src/main.py).

The program keeps a module-level list `concerts` of dict records together
with an auto-increment counter `concerts_key`, and exposes CRUD handlers
over them.  Records are embedded as association lists from field names to
values, the store as a structure holding the record list and the counter,
and each Flask handler as a pure function from the store (plus the request
data it reads) to the new store and an outcome.  An outcome is either an
HTTP response (status, body, optional Location header) or an uncaught
Python exception escaping the handler (`crash`), with the mutations the
handler performed before the exception retained in the returned store,
exactly as in the mutable Python original.
-/

/-- Modelled from the Python standard library (not part of src/main.py):
a `datetime.datetime` value.  The claims only depend on which strings
`datetime.fromisoformat` accepts and on `isoformat` round-tripping the
accepted string, so a datetime is embedded as the ISO string it was parsed
from and `isoformat` returns it unchanged. -/
structure PyDateTime where
  iso : String
deriving DecidableEq, Repr

/-- Python exceptions that can escape or be caught inside the handlers. -/
inductive PyErr where
  | keyError
  | valueError
  | attrError
  | assertError
deriving DecidableEq, Repr

/-- A JSON/record value: the handlers only ever store ints, strings and
datetimes in the record dicts. -/
inductive Val where
  | vInt (n : Int)
  | vStr (s : String)
  | vDate (d : PyDateTime)
deriving DecidableEq, Repr

/-- A Python dict record, embedded as an insertion-ordered association
list (Python dicts preserve insertion order). -/
abbrev Rec := List (String × Val)

/-- Dict lookup `r[k]` as an Option (None models a KeyError site). -/
def dictGet (r : Rec) (k : String) : Option Val :=
  match r.find? (fun p => p.1 == k) with
  | some p => some p.2
  | none => none

/-- `k in r` for a dict. -/
def hasKey (r : Rec) (k : String) : Bool :=
  (dictGet r k).isSome

/-- Dict assignment `r[k] = v`: replaces the value in place if the key is
present, appends the pair otherwise (Python dict semantics). -/
def dictSet (r : Rec) (k : String) (v : Val) : Rec :=
  if hasKey r k then r.map (fun p => if p.1 == k then (k, v) else p)
  else r ++ [(k, v)]

/-- Modelled from the Python standard library (not part of src/main.py):
`str.split(',')`.  Splits on every comma; the empty string yields `[""]`. -/
def splitCommaAux : List Char → List Char → List String
  | [], acc => [String.mk acc.reverse]
  | c :: cs, acc =>
    if c = ',' then String.mk acc.reverse :: splitCommaAux cs []
    else splitCommaAux cs (c :: acc)

/-- `s.split(',')` on a Lean string. -/
def splitComma (s : String) : List String :=
  splitCommaAux s.data []

/-- Modelled from the Python standard library (not part of src/main.py):
the shape check of `datetime.fromisoformat`.  Only the date part
`YYYY-MM-DD` is validated; this under-approximates CPython's grammar for
the time suffix, which no claim depends on.  Strings such as "garbage"
are rejected, full ISO timestamps such as the ones in src/main.py lines
10 and 12 are accepted. -/
def isoDateChars : List Char → Bool
  | y1 :: y2 :: y3 :: y4 :: '-' :: m1 :: m2 :: '-' :: d1 :: d2 :: _ =>
    y1.isDigit && y2.isDigit && y3.isDigit && y4.isDigit &&
    m1.isDigit && m2.isDigit && d1.isDigit && d2.isDigit
  | _ => false

/-- `datetime.fromisoformat(s)`: a `ValueError` on a malformed string,
otherwise the datetime carrying the string. -/
def fromisoformat (s : String) : Except PyErr PyDateTime :=
  if isoDateChars s.data then .ok ⟨s⟩ else .error .valueError

/-- `d.isoformat()`. -/
def PyDateTime.isoformat (d : PyDateTime) : String :=
  d.iso

/-- The store: the module-level `concerts` list and the `concerts_key`
auto-increment counter of src/main.py lines 9-13. -/
structure St where
  concerts : List Rec
  concerts_key : Int
deriving DecidableEq, Repr

/-- A response body: empty (`''` or a bare `Response()`), a JSON error
object, a single JSON record, or a JSON array of records. -/
inductive Body where
  | empty
  | err (msg : String)
  | obj (r : Rec)
  | arr (l : List Rec)
deriving DecidableEq, Repr

/-- An HTTP response: status code, body, optional Location header. -/
structure Resp where
  status : Nat
  body : Body
  location : Option String
deriving DecidableEq, Repr

/-- Outcome of one request: a response, or an uncaught exception that
escapes the handler. -/
inductive Outcome where
  | ok (r : Resp)
  | crash (e : PyErr)
deriving DecidableEq, Repr

def errResp (status : Nat) (msg : String) : Resp :=
  ⟨status, .err msg, none⟩

def okEmpty (status : Nat) : Resp :=
  ⟨status, .empty, none⟩

/-- The JSON body of a request, restricted to the four keys the handlers
of src/main.py ever read (`artist`, `venue`, `date`, `id`); `none` models
the key being absent (a `KeyError` site).  `is_json` models
`request.is_json`. -/
structure Req where
  is_json : Bool
  artist : Option String
  venue : Option String
  date : Option String
  id : Option Int
deriving DecidableEq, Repr

/-- src/main.py lines 16-25: `limit_offset`.  Python slice semantics with
negative-index wrapping and clamping are embedded by `pySlice`. -/
def pyIdx (len : Nat) (i : Int) : Nat :=
  if i < 0 then (max (i + len) 0).toNat else min i.toNat len

/-- `l[a:b]` for a Python list (step 1). -/
def pySlice {α : Type} (l : List α) (a b : Int) : List α :=
  (l.take (pyIdx l.length b)).drop (pyIdx l.length a)

/-- src/main.py lines 16-25: return `content_list[offset:offset+limit]`
when `limit or offset` is truthy, the whole list otherwise. -/
def limit_offset {α : Type} (content_list : List α) (limit offset : Int) : List α :=
  if limit != 0 || offset != 0 then pySlice content_list offset (offset + limit)
  else content_list

/-- src/main.py lines 28-37: `reduce_fields`.  `if fields:` is falsy for
both `None` and the empty string. -/
def reduce_fields (content_list : List Rec) (fields : Option String) : List Rec :=
  match fields with
  | none => content_list
  | some f =>
    if f == "" then content_list
    else
      let fs := splitComma f
      content_list.map (fun r => r.filter (fun p => fs.contains p.1))

/-- One step of the loop body of src/main.py line 52-53: convert field
`field` of record `r` to its iso string.  A missing key raises KeyError,
a non-datetime value raises AttributeError (`.isoformat` on it). -/
def convertField (r : Rec) (field : String) : Except PyErr Rec :=
  match dictGet r field with
  | none => .error .keyError
  | some (.vDate d) => .ok (dictSet r field (.vStr d.iso))
  | some _ => .error .attrError

/-- The inner loop of src/main.py lines 52-53 over the requested fields
of one record. -/
def convertFields (r : Rec) : List String → Except PyErr Rec
  | [] => .ok r
  | f :: fs =>
    match convertField r f with
    | .ok r' => convertFields r' fs
    | .error e => .error e

/-- The outer loop of src/main.py lines 51-53 over the records. -/
def convertAll : List Rec → List String → Except PyErr (List Rec)
  | [], _ => .ok []
  | r :: rest, fs =>
    match convertFields r fs with
    | .ok r' =>
      match convertAll rest fs with
      | .ok rest' => .ok (r' :: rest')
      | .error e => .error e
    | .error e => .error e

/-- src/main.py lines 40-54: `encode_date`.  The `assert fields != ''`
raises AssertionError on the empty string; the conversion happens only
when the list is non-empty and every requested field is a key of the
FIRST record, and it deep-copies before mutating, so the result is a
fresh list. -/
def encode_date (content_list : List Rec) (fields : String) : Except PyErr (List Rec) :=
  if fields == "" then .error .assertError
  else
    let fs := splitComma fields
    match content_list with
    | [] => .ok []
    | r0 :: _ =>
      if fs.all (fun f => hasKey r0 f) then convertAll content_list fs
      else .ok content_list

/-- The scan loop of src/main.py lines 65-67: first index whose `field`
equals `value`; a record without the key raises KeyError at
`content_list[index][field]`. -/
def scanIdx (field : String) (value : Val) : List Rec → Except PyErr (Option Nat)
  | [] => .ok none
  | r :: rest =>
    match dictGet r field with
    | none => .error .keyError
    | some v =>
      if v == value then .ok (some 0)
      else
        match scanIdx field value rest with
        | .ok o => .ok (o.map (· + 1))
        | .error e => .error e

/-- src/main.py lines 57-68: `content_index`.  Scans only when the list is
non-empty and the first record has the key; returns `none` (Python `None`)
otherwise or when no record matches. -/
def content_index (content_list : List Rec) (field : String) (value : Val) :
    Except PyErr (Option Nat) :=
  match content_list with
  | [] => .ok none
  | r0 :: _ =>
    if hasKey r0 field then scanIdx field value content_list
    else .ok none

/-- The record literal of src/main.py lines 101 and 190. -/
def mkConcert (identity : Int) (artist venue : String) (dt : PyDateTime) : Rec :=
  [("id", .vInt identity), ("artist", .vStr artist),
   ("venue", .vStr venue), ("date", .vDate dt)]

/-- The Location header `f'/concerts/{identity}'` of src/main.py line 106. -/
def locHeader (identity : Int) : String :=
  "/concerts/" ++ toString identity

/-- src/main.py lines 71-109: `POST /concerts`.  Note the duplicate-id
guard at line 93 is `if content_index(...):`, which is falsy both for
`None` and for the integer 0. -/
def post_concerts (s : St) (req : Req) : St × Outcome :=
  if req.is_json then
    match req.artist, req.venue, req.date with
    | some artist, some venue, some dstr =>
      match fromisoformat dstr with
      | .error _ => (s, .ok (errResp 400 "Wrong datetime format"))
      | .ok dt =>
        match req.id with
        | some identity =>
          match content_index s.concerts "id" (.vInt identity) with
          | .error e => (s, .crash e)
          | .ok (some i) =>
            if i ≠ 0 then (s, .ok (errResp 400 "Resource already exists"))
            else
              (⟨s.concerts ++ [mkConcert identity artist venue dt],
                if identity < s.concerts_key then s.concerts_key else identity + 1⟩,
               .ok ⟨201, .empty, some (locHeader identity)⟩)
          | .ok none =>
            (⟨s.concerts ++ [mkConcert identity artist venue dt],
              if identity < s.concerts_key then s.concerts_key else identity + 1⟩,
             .ok ⟨201, .empty, some (locHeader identity)⟩)
        | none =>
          (⟨s.concerts ++ [mkConcert s.concerts_key artist venue dt],
            s.concerts_key + 1⟩,
           .ok ⟨201, .empty, some (locHeader s.concerts_key)⟩)
    | _, _, _ => (s, .ok (errResp 400 "Missing field(s)"))
  else (s, .ok (errResp 400 "Incorrect Content-Type"))

/-- src/main.py lines 112-122: `POST /concerts/{id}` (conflict reporter). -/
def post_concerts_id (s : St) (identity : Int) : St × Outcome :=
  match content_index s.concerts "id" (.vInt identity) with
  | .error e => (s, .crash e)
  | .ok (some i) =>
    if i ≠ 0 then (s, .ok (errResp 409 "Resource already exists"))
    else (s, .ok (errResp 404 "Resource not found"))
  | .ok none => (s, .ok (errResp 404 "Resource not found"))

/-- src/main.py lines 125-140: `GET /concerts` with the
paginate → project → encode-dates pipeline. -/
def get_concerts (s : St) (limit offset : Int) (fields : Option String) :
    St × Outcome :=
  let t1 := limit_offset s.concerts limit offset
  let t2 := reduce_fields t1 fields
  match encode_date t2 "date" with
  | .error e => (s, .crash e)
  | .ok t3 => (s, .ok ⟨200, .arr t3, none⟩)

/-- src/main.py lines 143-160: `GET /concerts/{id}`.  `if index:` treats
a found index of 0 like `None`. -/
def get_concerts_id (s : St) (identity : Int) (fields : Option String) :
    St × Outcome :=
  match content_index s.concerts "id" (.vInt identity) with
  | .error e => (s, .crash e)
  | .ok (some i) =>
    if i ≠ 0 then
      let t1 := [s.concerts.getD i []]
      let t2 := reduce_fields t1 fields
      match encode_date t2 "date" with
      | .error e => (s, .crash e)
      | .ok t3 => (s, .ok ⟨200, .obj (t3.getD 0 []), none⟩)
    else (s, .ok (errResp 404 "Resource not found"))
  | .ok none => (s, .ok (errResp 404 "Resource not found"))

/-- src/main.py lines 163-168: `PUT /concerts` is 405. -/
def put_concerts (s : St) : St × Outcome :=
  (s, .ok (errResp 405 "Method Not Allowed"))

/-- src/main.py lines 171-201: `PUT /concerts/{id}`.  Only KeyError is
caught around the body reads: a malformed date string makes
`datetime.fromisoformat` raise an uncaught ValueError.  `if index:`
sends a match at position 0 into the create branch. -/
def put_concerts_id (s : St) (identity : Int) (req : Req) : St × Outcome :=
  if req.is_json then
    match req.artist, req.venue, req.date with
    | some artist, some venue, some dstr =>
      match fromisoformat dstr with
      | .error e => (s, .crash e)
      | .ok dt =>
        match content_index s.concerts "id" (.vInt identity) with
        | .error e => (s, .crash e)
        | .ok (some i) =>
          if i ≠ 0 then
            (⟨s.concerts.set i (mkConcert identity artist venue dt), s.concerts_key⟩,
             .ok (okEmpty 204))
          else
            (⟨s.concerts ++ [mkConcert identity artist venue dt],
              if identity < s.concerts_key then s.concerts_key else identity + 1⟩,
             .ok (okEmpty 201))
        | .ok none =>
          (⟨s.concerts ++ [mkConcert identity artist venue dt],
            if identity < s.concerts_key then s.concerts_key else identity + 1⟩,
           .ok (okEmpty 201))
    | _, _, _ => (s, .ok (errResp 400 "Missing field(s)"))
  else (s, .ok (errResp 400 "Incorrect Content-Type or no JSON payload"))

/-- src/main.py lines 204-209: `PATCH /concerts` is 405. -/
def patch_concerts (s : St) : St × Outcome :=
  (s, .ok (errResp 405 "Method Not Allowed"))

/-- The merge loop of src/main.py lines 225-227: for each of the keys
'artist' and 'venue' present in the request body, write its value into
the record. -/
def patchMerge (r0 : Rec) (req : Req) : Rec :=
  let r1 := match req.artist with
            | some a => dictSet r0 "artist" (.vStr a)
            | none => r0
  match req.venue with
  | some v => dictSet r1 "venue" (.vStr v)
  | none => r1

/-- src/main.py lines 212-235: `PATCH /concerts/{id}`.  The artist and
venue keys are merged into the stored record IN PLACE before the date
string is parsed, so an unparseable date leaves the partially merged
record in the store and the ValueError escapes uncaught. -/
def patch_concerts_id (s : St) (identity : Int) (req : Req) : St × Outcome :=
  if req.is_json then
    match content_index s.concerts "id" (.vInt identity) with
    | .error e => (s, .crash e)
    | .ok (some i) =>
      if i ≠ 0 then
        let r2 := patchMerge (s.concerts.getD i []) req
        match req.date with
        | some dstr =>
          match fromisoformat dstr with
          | .error e => (⟨s.concerts.set i r2, s.concerts_key⟩, .crash e)
          | .ok dt =>
            (⟨s.concerts.set i (dictSet r2 "date" (.vDate dt)), s.concerts_key⟩,
             .ok (okEmpty 204))
        | none => (⟨s.concerts.set i r2, s.concerts_key⟩, .ok (okEmpty 204))
      else (s, .ok (errResp 404 "Resource not found"))
    | .ok none => (s, .ok (errResp 404 "Resource not found"))
  else (s, .ok (errResp 400 "Incorrect Content-Type"))

/-- src/main.py lines 238-243: `DELETE /concerts` is 405. -/
def del_concerts (s : St) : St × Outcome :=
  (s, .ok (errResp 405 "Method Not Allowed"))

/-- src/main.py lines 246-265: `DELETE /concerts/{id}`.  `if index:`
again conflates a match at position 0 with not-found. -/
def del_concerts_id (s : St) (identity : Int) : St × Outcome :=
  match content_index s.concerts "id" (.vInt identity) with
  | .error e => (s, .crash e)
  | .ok (some i) =>
    if i ≠ 0 then
      match encode_date [s.concerts.getD i []] "date" with
      | .error e => (s, .crash e)
      | .ok tmp =>
        (⟨s.concerts.eraseIdx i, s.concerts_key⟩, .ok ⟨200, .obj (tmp.getD 0 []), none⟩)
    else (s, .ok (errResp 404 "Resource not found"))
  | .ok none => (s, .ok (errResp 404 "Resource not found"))

/-- The initial store of src/main.py lines 9-13. -/
def st0 : St :=
  ⟨[mkConcert 1 "Pink Floyd" "Werchter" ⟨"2017-07-20T20:00:00-02:00"⟩,
    mkConcert 2 "Kraftwerk" "Domaine National de St Cloud" ⟨"2022-09-26T15:00:00-02:00"⟩],
   3⟩

/-- One incoming request, as dispatched by the Flask router. -/
inductive Act where
  | postCol (req : Req)
  | postId (identity : Int)
  | getAll (limit offset : Int) (fields : Option String)
  | getOne (identity : Int) (fields : Option String)
  | putCol
  | putId (identity : Int) (req : Req)
  | patchCol
  | patchId (identity : Int) (req : Req)
  | delCol
  | delId (identity : Int)
deriving DecidableEq, Repr

/-- Dispatch one request to its handler. -/
def step (s : St) : Act → St × Outcome
  | .postCol req => post_concerts s req
  | .postId i => post_concerts_id s i
  | .getAll l o f => get_concerts s l o f
  | .getOne i f => get_concerts_id s i f
  | .putCol => put_concerts s
  | .putId i req => put_concerts_id s i req
  | .patchCol => patch_concerts s
  | .patchId i req => patch_concerts_id s i req
  | .delCol => del_concerts s
  | .delId i => del_concerts_id s i

/-- Run a sequence of requests, threading the store. -/
def run (s : St) : List Act → St
  | [] => s
  | a :: rest => run (step s a).1 rest

/-- A store the server can be in: reached from the initial store by some
request sequence. -/
def Reachable (s : St) : Prop :=
  ∃ acts, run st0 acts = s

/-! Helper lemmas about the slice model. -/

theorem pySlice_self_empty {α : Type} (l : List α) (o : Int) : pySlice l o o = [] := by
  unfold pySlice
  apply List.drop_eq_nil_of_le
  rw [List.length_take]
  exact min_le_left _ _

/-- C8: for every list and integer limit/offset, `limit_offset` returns
`list[offset : offset+limit]` whenever limit or offset is non-zero and the
list unchanged when both are zero; in particular `limit=0` with non-zero
`offset` yields the empty slice, not the whole list. -/
theorem C8_limit_offset_semantics {α : Type} (l : List α) (limit offset : Int) :
    (limit = 0 → offset = 0 → limit_offset l limit offset = l)
    ∧ ((limit ≠ 0 ∨ offset ≠ 0) →
        limit_offset l limit offset = pySlice l offset (offset + limit))
    ∧ (limit = 0 → offset ≠ 0 → limit_offset l limit offset = []) := by
  refine ⟨?_, ?_, ?_⟩
  · intro h1 h2
    simp [limit_offset, h1, h2]
  · intro h
    have hc : (limit != 0 || offset != 0) = true := by
      rcases h with h | h <;> simp [h]
    simp [limit_offset, hc]
  · intro h1 h2
    have hc : (limit != 0 || offset != 0) = true := by simp [h2]
    subst h1
    simp only [limit_offset, hc, if_true, add_zero]
    exact pySlice_self_empty l offset

/-- Witness for C8 at a concrete input: limit 0 with offset 2 on a
five-element list yields the empty list. -/
theorem C8_limit_offset_semantics_witness :
    limit_offset ([1, 2, 3, 4, 5] : List Nat) 0 2 = [] :=
  (C8_limit_offset_semantics [1, 2, 3, 4, 5] 0 2).2.2 rfl (by decide)

/-- A POST body carrying the id 1, which the initial store already holds
at position 0. -/
def dupPostReq : Req :=
  ⟨true, some "The Prodigy", some "Brussels", some "2020-01-01T00:00:00", some 1⟩

/-- C3 (code bug): on the initial store, whose record with id 1 sits at
position 0, a POST carrying id 1 does NOT return 400 "Resource already
exists": the `if content_index(...)` guard of src/main.py line 93 treats
the found index 0 as falsy, so the handler returns 201 and appends a
second record with id 1. -/
theorem C3_post_duplicate_id_at_position_zero :
    post_concerts st0 dupPostReq =
      (⟨st0.concerts ++ [mkConcert 1 "The Prodigy" "Brussels" ⟨"2020-01-01T00:00:00"⟩], 3⟩,
       .ok ⟨201, .empty, some "/concerts/1"⟩) := by
  decide

/-- C2 (code bug): the state reached from the initial store by the single
POST above has id values [1, 2, 1] — not pairwise distinct, violating the
uniqueness invariant. -/
theorem C2_duplicate_ids_in_reachable_state :
    (run st0 [Act.postCol dupPostReq]).concerts.map (fun r => dictGet r "id")
        = [some (.vInt 1), some (.vInt 2), some (.vInt 1)]
    ∧ ¬ ((run st0 [Act.postCol dupPostReq]).concerts.map (fun r => dictGet r "id")).Nodup := by
  exact ⟨by decide, by decide⟩

/-- A full PUT body (artist, venue, parseable date, no id key). -/
def putReqNirvana : Req :=
  ⟨true, some "Nirvana", some "Seattle", some "1991-01-01T00:00:00", none⟩

/-- C5 (code bug): PUT /concerts/1 on the initial store, whose record
with id 1 sits at position 0, does NOT replace that record with status
204: `if index:` at src/main.py line 193 treats the found index 0 as
falsy, so the handler takes the create branch, appends a duplicate record
with id 1 and returns 201. -/
theorem C5_put_existing_id_at_position_zero :
    put_concerts_id st0 1 putReqNirvana =
      (⟨st0.concerts ++ [mkConcert 1 "Nirvana" "Seattle" ⟨"1991-01-01T00:00:00"⟩], 3⟩,
       .ok (okEmpty 201)) := by
  decide

/-- C6 (code bug): DELETE /concerts/1 on the initial store, whose record
with id 1 sits at position 0, does NOT remove the record and return 200:
`if index:` at src/main.py line 257 treats the found index 0 as falsy, so
the handler answers 404 "Resource not found" and leaves the store
untouched. -/
theorem C6_delete_existing_id_at_position_zero :
    del_concerts_id st0 1 = (st0, .ok (errResp 404 "Resource not found")) := by
  decide

/-- A PATCH body with a valid artist field and an unparseable date. -/
def patchBadDateReq : Req :=
  ⟨true, some "ACDC", none, some "garbage", none⟩

/-- C4 counterexample: PATCH /concerts/2 on the initial store with a valid
artist but the unparseable date "garbage" is NOT mapped to an HTTP error
response — the ValueError of src/main.py line 229 escapes the handler —
and the store is NOT as it was before the request: the artist of record 2
has already been merged to "ACDC" (partial mutation). -/
theorem C4_counterexample :
    (patch_concerts_id st0 2 patchBadDateReq).2 = .crash .valueError
    ∧ (patch_concerts_id st0 2 patchBadDateReq).1 ≠ st0
    ∧ (patch_concerts_id st0 2 patchBadDateReq).1.concerts.map (fun r => dictGet r "artist")
        = [some (.vStr "Pink Floyd"), some (.vStr "ACDC")] := by
  exact ⟨by decide, by decide, by decide⟩

/-- C9 counterexample: a two-record list whose first record has the
requested "date" key but whose second record lacks it makes `encode_date`
raise KeyError at src/main.py line 53 (the presence check only inspects
the first record, the conversion loop runs over every record), instead of
returning the converted list the claim promises. -/
theorem C9_counterexample :
    encode_date
      [[("date", Val.vDate ⟨"2017-07-20T20:00:00-02:00"⟩)], [("artist", Val.vStr "x")]]
      "date" = .error .keyError := by
  rfl

/-! Lemmas characterising `content_index`. -/

/-- The index of the first record satisfying `p`, the specification of a
first-match scan. -/
def firstIdx (p : Rec → Bool) : List Rec → Option Nat
  | [] => none
  | r :: rest => if p r then some 0 else (firstIdx p rest).map (· + 1)

theorem scanIdx_eq_firstIdx (field : String) (v : Val) (l : List Rec)
    (h : ∀ r ∈ l, hasKey r field = true) :
    scanIdx field v l = .ok (firstIdx (fun r => dictGet r field == some v) l) := by
  induction l with
  | nil => rfl
  | cons r rest ih =>
    have hr : hasKey r field = true := h r (by simp)
    obtain ⟨w, hw⟩ : ∃ w, dictGet r field = some w := by
      cases hx : dictGet r field with
      | none => rw [hasKey, hx] at hr; simp at hr
      | some w => exact ⟨w, rfl⟩
    have ih' := ih (fun r hr => h r (by simp [hr]))
    by_cases hv : w = v
    · subst hv
      simp [scanIdx, firstIdx, hw]
    · have hbv : (w == v) = false := by simp [hv]
      simp [scanIdx, firstIdx, hw, hbv, ih']

theorem content_index_first_match (l : List Rec) (v : Val)
    (h : ∀ r ∈ l, hasKey r "id" = true) :
    content_index l "id" v = .ok (firstIdx (fun r => dictGet r "id" == some v) l) := by
  cases l with
  | nil => rfl
  | cons r0 rest =>
    have h0 : hasKey r0 "id" = true := h r0 (by simp)
    simp only [content_index, h0, if_true]
    exact scanIdx_eq_firstIdx _ _ _ h

theorem content_index_head_match (r0 : Rec) (rest : List Rec) (v : Val)
    (h : dictGet r0 "id" = some v) :
    content_index (r0 :: rest) "id" v = .ok (some 0) := by
  have hk : hasKey r0 "id" = true := by rw [hasKey, h]; rfl
  simp [content_index, scanIdx, hk, h]

/-- C1: `content_index` returns the position of the first record whose id
matches, and each item handler guards its found branch with a Python
truthiness test, so a match at position 0 is routed to the not-found (or
create) branch: GET answers 404, PUT takes the create branch and answers
201 appending a fresh record, PATCH answers 404, DELETE answers 404. -/
theorem C1_index_zero_treated_as_not_found :
    (∀ (l : List Rec) (v : Val), (∀ r ∈ l, hasKey r "id" = true) →
      content_index l "id" v = .ok (firstIdx (fun r => dictGet r "id" == some v) l))
    ∧
    (∀ (s : St) (k : Int) (fields : Option String) (req : Req)
       (r0 : Rec) (rest : List Rec),
      s.concerts = r0 :: rest →
      dictGet r0 "id" = some (.vInt k) →
      req.is_json = true →
      ((get_concerts_id s k fields).2 = .ok (errResp 404 "Resource not found")
       ∧ (∀ a v d dt, req.artist = some a → req.venue = some v → req.date = some d →
            fromisoformat d = .ok dt →
            put_concerts_id s k req =
              (⟨s.concerts ++ [mkConcert k a v dt],
                if k < s.concerts_key then s.concerts_key else k + 1⟩,
               .ok (okEmpty 201)))
       ∧ (patch_concerts_id s k req).2 = .ok (errResp 404 "Resource not found")
       ∧ del_concerts_id s k = (s, .ok (errResp 404 "Resource not found")))) := by
  constructor
  · exact content_index_first_match
  · intro s k fields req r0 rest hs h0 hj
    have hci : content_index s.concerts "id" (.vInt k) = .ok (some 0) := by
      rw [hs]; exact content_index_head_match r0 rest _ h0
    refine ⟨?_, ?_, ?_, ?_⟩
    · simp [get_concerts_id, hci]
    · intro a v d dt ha hv hd hdt
      simp [put_concerts_id, hj, ha, hv, hd, hdt, hci]
    · simp [patch_concerts_id, hj, hci]
    · simp [del_concerts_id, hci]

/-- A full PUT/PATCH body used to witness C1. -/
def c1Req : Req :=
  ⟨true, some "Queen", some "London", some "1985-07-13T00:00:00", none⟩

/-- Witness for C1 on the initial store, whose record with id 1 sits at
position 0: GET/PATCH/DELETE of id 1 answer 404, PUT of id 1 answers 201
and appends. -/
theorem C1_index_zero_treated_as_not_found_witness :
    (get_concerts_id st0 1 none).2 = .ok (errResp 404 "Resource not found")
    ∧ put_concerts_id st0 1 c1Req =
        (⟨st0.concerts ++ [mkConcert 1 "Queen" "London" ⟨"1985-07-13T00:00:00"⟩], 3⟩,
         .ok (okEmpty 201))
    ∧ (patch_concerts_id st0 1 c1Req).2 = .ok (errResp 404 "Resource not found")
    ∧ del_concerts_id st0 1 = (st0, .ok (errResp 404 "Resource not found")) := by
  have h := C1_index_zero_treated_as_not_found.2 st0 1 none c1Req
      (mkConcert 1 "Pink Floyd" "Werchter" ⟨"2017-07-20T20:00:00-02:00"⟩)
      [mkConcert 2 "Kraftwerk" "Domaine National de St Cloud" ⟨"2022-09-26T15:00:00-02:00"⟩]
      rfl (by decide) rfl
  refine ⟨h.1, ?_, h.2.2.1, h.2.2.2⟩
  have h2 := h.2.1 "Queen" "London" "1985-07-13T00:00:00" ⟨"1985-07-13T00:00:00"⟩
      rfl rfl rfl rfl
  simpa using h2

/-! Lemmas for the counter invariant (C7). -/

/-- The id of `r` (when it is an int) is below `k`. -/
def idLt (r : Rec) (k : Int) : Bool :=
  match dictGet r "id" with
  | some (.vInt n) => decide (n < k)
  | _ => true

/-- Counter dominates every id in the store. -/
def keyBound (s : St) : Prop :=
  s.concerts.all (fun r => idLt r s.concerts_key) = true

theorem idLt_mono {r : Rec} {k k' : Int} (hk : k ≤ k') (h : idLt r k = true) :
    idLt r k' = true := by
  unfold idLt at h ⊢
  cases hx : dictGet r "id" with
  | none => simp
  | some v =>
    cases v with
    | vInt n =>
      rw [hx] at h
      simp only [decide_eq_true_eq] at h ⊢
      omega
    | vStr a => simp
    | vDate d => simp

theorem idLt_congr {r r' : Rec} {k : Int} (h : dictGet r "id" = dictGet r' "id") :
    idLt r k = idLt r' k := by
  unfold idLt
  rw [h]

theorem scanIdx_mem {field : String} {v : Val} {l : List Rec} {j : Nat}
    (h : scanIdx field v l = .ok (some j)) :
    ∃ r ∈ l, dictGet r field = some v := by
  induction l generalizing j with
  | nil => simp [scanIdx] at h
  | cons r rest ih =>
    unfold scanIdx at h
    cases hx : dictGet r field with
    | none => simp only [hx] at h; exact absurd h (by simp)
    | some w =>
      simp only [hx] at h
      by_cases hv : w = v
      · exact ⟨r, by simp, by rw [hx, hv]⟩
      · have hb : (w == v) = false := by simp [hv]
        simp only [hb, Bool.false_eq_true, if_false] at h
        cases hs : scanIdx field v rest with
        | error e => simp only [hs] at h; exact absurd h (by simp)
        | ok o =>
          simp only [hs] at h
          cases o with
          | none => simp at h
          | some j' =>
            obtain ⟨r', hr', hval⟩ := ih hs
            exact ⟨r', by simp [hr'], hval⟩

theorem scanIdx_lt_length {field : String} {v : Val} {l : List Rec} {j : Nat}
    (h : scanIdx field v l = .ok (some j)) :
    j < l.length := by
  induction l generalizing j with
  | nil => simp [scanIdx] at h
  | cons r rest ih =>
    unfold scanIdx at h
    cases hx : dictGet r field with
    | none => simp only [hx] at h; exact absurd h (by simp)
    | some w =>
      simp only [hx] at h
      by_cases hv : (w == v) = true
      · simp only [hv, if_true] at h
        cases h
        simp
      · rw [Bool.not_eq_true] at hv
        simp only [hv, Bool.false_eq_true, if_false] at h
        cases hs : scanIdx field v rest with
        | error e => simp only [hs] at h; exact absurd h (by simp)
        | ok o =>
          simp only [hs] at h
          cases o with
          | none => simp at h
          | some j' =>
            simp at h
            have := ih hs
            simp only [List.length_cons]
            omega

theorem content_index_some {l : List Rec} {field : String} {v : Val} {i : Nat}
    (h : content_index l field v = .ok (some i)) :
    (∃ r ∈ l, dictGet r field = some v) ∧ i < l.length := by
  cases l with
  | nil => simp [content_index] at h
  | cons r0 rest =>
    unfold content_index at h
    by_cases hk : hasKey r0 field = true
    · simp only [hk, if_true] at h
      exact ⟨scanIdx_mem h, scanIdx_lt_length h⟩
    · simp only [hk, Bool.false_eq_true, if_false] at h
      exact absurd h (by simp)

theorem find?_key_map_set (r : Rec) (k k2 : String) (v : Val) (h : k ≠ k2) :
    (r.map (fun p => if p.1 == k then (k, v) else p)).find? (fun p => p.1 == k2)
      = r.find? (fun p => p.1 == k2) := by
  induction r with
  | nil => rfl
  | cons p rest ih =>
    by_cases hp : p.1 = k
    · have hb : (p.1 == k) = true := by simp [hp]
      have h1 : ((k, v).1 == k2) = false := by simp [h]
      have h2 : (p.1 == k2) = false := by simp [hp, h]
      simp only [List.map_cons, hb, if_true]
      rw [List.find?_cons_of_neg _ (by simp [h]), List.find?_cons_of_neg _ (by simp [hp, h]), ih]
    · have hb : (p.1 == k) = false := by simp [hp]
      simp only [List.map_cons, hb, Bool.false_eq_true, if_false]
      by_cases hq : p.1 = k2
      · rw [List.find?_cons_of_pos _ (by simp [hq]), List.find?_cons_of_pos _ (by simp [hq])]
      · rw [List.find?_cons_of_neg _ (by simp [hq]), List.find?_cons_of_neg _ (by simp [hq]), ih]

theorem find?_key_append_single (r : Rec) (k k2 : String) (v : Val) (h : k ≠ k2) :
    (r ++ [(k, v)]).find? (fun p => p.1 == k2) = r.find? (fun p => p.1 == k2) := by
  induction r with
  | nil =>
    simp only [List.nil_append]
    rw [List.find?_cons_of_neg _ (by simp [h])]
  | cons p rest ih =>
    by_cases hq : p.1 = k2
    · rw [List.cons_append, List.find?_cons_of_pos _ (by simp [hq]),
          List.find?_cons_of_pos _ (by simp [hq])]
    · rw [List.cons_append, List.find?_cons_of_neg _ (by simp [hq]),
          List.find?_cons_of_neg _ (by simp [hq]), ih]

/-- Writing a key other than `k2` does not change the value read at `k2`. -/
theorem dictGet_dictSet_ne (r : Rec) (k k2 : String) (v : Val) (h : k ≠ k2) :
    dictGet (dictSet r k v) k2 = dictGet r k2 := by
  unfold dictSet
  by_cases hk : hasKey r k = true
  · simp only [hk, if_true]
    unfold dictGet
    rw [find?_key_map_set r k k2 v h]
  · simp only [hk, Bool.false_eq_true, if_false]
    unfold dictGet
    rw [find?_key_append_single r k k2 v h]

theorem dictGet_mkConcert_id (identity : Int) (a v : String) (dt : PyDateTime) :
    dictGet (mkConcert identity a v dt) "id" = some (.vInt identity) := rfl

theorem key_le_bump (idv k : Int) : k ≤ if idv < k then k else idv + 1 := by
  split <;> omega

theorem idv_lt_bump (idv k : Int) : idv < if idv < k then k else idv + 1 := by
  split <;> omega

theorem keyBound_append {s : St} (idv : Int) (a v : String) (dt : PyDateTime)
    (h : keyBound s) :
    keyBound ⟨s.concerts ++ [mkConcert idv a v dt],
              if idv < s.concerts_key then s.concerts_key else idv + 1⟩ := by
  simp only [keyBound, List.all_eq_true] at h ⊢
  intro r hr
  rcases List.mem_append.mp hr with hmem | hmem
  · exact idLt_mono (key_le_bump idv s.concerts_key) (h r hmem)
  · have : r = mkConcert idv a v dt := by simpa using hmem
    subst this
    unfold idLt
    rw [dictGet_mkConcert_id]
    simpa using idv_lt_bump idv s.concerts_key

theorem keyBound_set_concert {s : St} {i : Nat} {identity : Int} (a v : String)
    (dt : PyDateTime)
    (hci : content_index s.concerts "id" (.vInt identity) = .ok (some i))
    (h : keyBound s) :
    keyBound ⟨s.concerts.set i (mkConcert identity a v dt), s.concerts_key⟩ := by
  obtain ⟨⟨r0, hr0, hid0⟩, _⟩ := content_index_some hci
  simp only [keyBound, List.all_eq_true] at h ⊢
  have hlt : identity < s.concerts_key := by
    have := h r0 hr0
    unfold idLt at this
    rw [hid0] at this
    simpa using this
  intro r hr
  rcases List.mem_or_eq_of_mem_set hr with hmem | heq
  · exact h r hmem
  · subst heq
    unfold idLt
    rw [dictGet_mkConcert_id]
    simpa using hlt

theorem keyBound_set_same_id {s : St} {i : Nat} {r2 : Rec}
    (hlen : i < s.concerts.length)
    (hid : dictGet r2 "id" = dictGet (s.concerts.getD i []) "id")
    (h : keyBound s) :
    keyBound ⟨s.concerts.set i r2, s.concerts_key⟩ := by
  simp only [keyBound, List.all_eq_true] at h ⊢
  intro r hr
  rcases List.mem_or_eq_of_mem_set hr with hmem | heq
  · exact h r hmem
  · subst heq
    rw [idLt_congr hid]
    refine h _ ?_
    have : s.concerts.getD i [] = s.concerts.get ⟨i, hlen⟩ := by
      simp [List.getD_eq_getElem?_getD, List.getElem?_eq_getElem hlen]
    rw [this]
    exact List.get_mem s.concerts i hlen

theorem keyBound_erase {s : St} (i : Nat) (h : keyBound s) :
    keyBound ⟨s.concerts.eraseIdx i, s.concerts_key⟩ := by
  simp only [keyBound, List.all_eq_true] at h ⊢
  intro r hr
  exact h r ((List.eraseIdx_sublist s.concerts i).subset hr)

/-! State-shape lemmas: every handler either leaves the store alone,
appends one freshly built concert (bumping the counter), replaces one
record in place, or erases one record. -/

theorem post_concerts_shape (s : St) (req : Req) :
    (post_concerts s req).1 = s
    ∨ ∃ idv a v dt, (post_concerts s req).1 =
        ⟨s.concerts ++ [mkConcert idv a v dt],
         if idv < s.concerts_key then s.concerts_key else idv + 1⟩ := by
  cases hj : req.is_json
  · left; simp [post_concerts, hj]
  · cases ha : req.artist
    · left; simp [post_concerts, hj, ha]
    · rename_i a
      cases hv : req.venue
      · left; simp [post_concerts, hj, ha, hv]
      · rename_i v
        cases hd : req.date
        · left; simp [post_concerts, hj, ha, hv, hd]
        · rename_i dstr
          cases hdt : fromisoformat dstr
          · left; simp [post_concerts, hj, ha, hv, hd, hdt]
          · rename_i dt
            cases hid : req.id
            · right
              refine ⟨s.concerts_key, a, v, dt, ?_⟩
              simp [post_concerts, hj, ha, hv, hd, hdt, hid]
            · rename_i idv
              cases hci : content_index s.concerts "id" (.vInt idv)
              · left; simp [post_concerts, hj, ha, hv, hd, hdt, hid, hci]
              · rename_i o
                cases o
                · right
                  exact ⟨idv, a, v, dt, by
                    simp [post_concerts, hj, ha, hv, hd, hdt, hid, hci]⟩
                · rename_i i
                  by_cases hi : i = 0
                  · right
                    exact ⟨idv, a, v, dt, by
                      simp [post_concerts, hj, ha, hv, hd, hdt, hid, hci, hi]⟩
                  · left
                    simp [post_concerts, hj, ha, hv, hd, hdt, hid, hci, hi]

theorem put_concerts_id_shape (s : St) (identity : Int) (req : Req) :
    (put_concerts_id s identity req).1 = s
    ∨ (∃ a v dt, (put_concerts_id s identity req).1 =
        ⟨s.concerts ++ [mkConcert identity a v dt],
         if identity < s.concerts_key then s.concerts_key else identity + 1⟩)
    ∨ (∃ i a v dt, content_index s.concerts "id" (.vInt identity) = .ok (some i)
        ∧ (put_concerts_id s identity req).1 =
            ⟨s.concerts.set i (mkConcert identity a v dt), s.concerts_key⟩) := by
  cases hj : req.is_json
  · left; simp [put_concerts_id, hj]
  · cases ha : req.artist
    · left; simp [put_concerts_id, hj, ha]
    · rename_i a
      cases hv : req.venue
      · left; simp [put_concerts_id, hj, ha, hv]
      · rename_i v
        cases hd : req.date
        · left; simp [put_concerts_id, hj, ha, hv, hd]
        · rename_i dstr
          cases hdt : fromisoformat dstr
          · left; simp [put_concerts_id, hj, ha, hv, hd, hdt]
          · rename_i dt
            cases hci : content_index s.concerts "id" (.vInt identity)
            · left; simp [put_concerts_id, hj, ha, hv, hd, hdt, hci]
            · rename_i o
              cases o
              · right; left
                exact ⟨a, v, dt, by simp [put_concerts_id, hj, ha, hv, hd, hdt, hci]⟩
              · rename_i i
                by_cases hi : i = 0
                · right; left
                  exact ⟨a, v, dt, by
                    simp [put_concerts_id, hj, ha, hv, hd, hdt, hci, hi]⟩
                · right; right
                  exact ⟨i, a, v, dt, rfl, by
                    simp [put_concerts_id, hj, ha, hv, hd, hdt, hci, hi]⟩

theorem dictGet_id_mergeArtist (r : Rec) (o : Option String) :
    dictGet (match o with | some a => dictSet r "artist" (.vStr a) | none => r) "id"
      = dictGet r "id" := by
  cases o
  · rfl
  · exact dictGet_dictSet_ne _ _ _ _ (by decide)

theorem dictGet_id_mergeVenue (r : Rec) (o : Option String) :
    dictGet (match o with | some v => dictSet r "venue" (.vStr v) | none => r) "id"
      = dictGet r "id" := by
  cases o
  · rfl
  · exact dictGet_dictSet_ne _ _ _ _ (by decide)

theorem dictGet_id_patchMerge (r : Rec) (req : Req) :
    dictGet (patchMerge r req) "id" = dictGet r "id" := by
  simp only [patchMerge]
  rw [dictGet_id_mergeVenue, dictGet_id_mergeArtist]

theorem patch_concerts_id_shape (s : St) (identity : Int) (req : Req) :
    (patch_concerts_id s identity req).1 = s
    ∨ ∃ i r2, content_index s.concerts "id" (.vInt identity) = .ok (some i)
        ∧ dictGet r2 "id" = dictGet (s.concerts.getD i []) "id"
        ∧ (patch_concerts_id s identity req).1 = ⟨s.concerts.set i r2, s.concerts_key⟩ := by
  cases hj : req.is_json
  · left; simp [patch_concerts_id, hj]
  · cases hci : content_index s.concerts "id" (.vInt identity)
    · left; simp [patch_concerts_id, hj, hci]
    · rename_i o
      cases o
      · left; simp [patch_concerts_id, hj, hci]
      · rename_i i
        by_cases hi : i = 0
        · left; simp [patch_concerts_id, hj, hci, hi]
        · right
          cases hd : req.date
          · exact ⟨i, patchMerge (s.concerts.getD i []) req, rfl,
              dictGet_id_patchMerge _ _, by
                simp [patch_concerts_id, hj, hci, hi, hd]⟩
          · rename_i dstr
            cases hdt : fromisoformat dstr
            · exact ⟨i, patchMerge (s.concerts.getD i []) req, rfl,
                dictGet_id_patchMerge _ _, by
                  simp [patch_concerts_id, hj, hci, hi, hd, hdt]⟩
            · rename_i dt
              refine ⟨i, dictSet (patchMerge (s.concerts.getD i []) req) "date" (.vDate dt),
                rfl, ?_, by simp [patch_concerts_id, hj, hci, hi, hd, hdt]⟩
              rw [dictGet_dictSet_ne _ _ _ _ (by decide)]
              exact dictGet_id_patchMerge _ _

theorem del_concerts_id_shape (s : St) (identity : Int) :
    (del_concerts_id s identity).1 = s
    ∨ ∃ i, content_index s.concerts "id" (.vInt identity) = .ok (some i)
        ∧ (del_concerts_id s identity).1 = ⟨s.concerts.eraseIdx i, s.concerts_key⟩ := by
  cases hci : content_index s.concerts "id" (.vInt identity)
  · left; simp [del_concerts_id, hci]
  · rename_i o
    cases o
    · left; simp [del_concerts_id, hci]
    · rename_i i
      by_cases hi : i = 0
      · left; simp [del_concerts_id, hci, hi]
      · cases henc : encode_date [s.concerts.getD i []] "date"
        · left
          simp only [del_concerts_id, hci]
          rw [if_pos hi, henc]
        · right
          refine ⟨i, rfl, ?_⟩
          simp only [del_concerts_id, hci]
          rw [if_pos hi, henc]

theorem post_concerts_id_state (s : St) (identity : Int) :
    (post_concerts_id s identity).1 = s := by
  cases hci : content_index s.concerts "id" (.vInt identity)
  · simp [post_concerts_id, hci]
  · rename_i o
    cases o
    · simp [post_concerts_id, hci]
    · rename_i i
      by_cases hi : i = 0 <;> simp [post_concerts_id, hci, hi]

theorem get_concerts_state (s : St) (limit offset : Int) (fields : Option String) :
    (get_concerts s limit offset fields).1 = s := by
  cases h : encode_date (reduce_fields (limit_offset s.concerts limit offset) fields) "date"
  · simp [get_concerts, h]
  · simp [get_concerts, h]

theorem get_concerts_id_state (s : St) (identity : Int) (fields : Option String) :
    (get_concerts_id s identity fields).1 = s := by
  cases hci : content_index s.concerts "id" (.vInt identity)
  · simp [get_concerts_id, hci]
  · rename_i o
    cases o
    · simp [get_concerts_id, hci]
    · rename_i i
      by_cases hi : i = 0
      · simp [get_concerts_id, hci, hi]
      · cases henc : encode_date (reduce_fields [s.concerts.getD i []] fields) "date"
        · simp only [get_concerts_id, hci]
          rw [if_pos hi, henc]
        · simp only [get_concerts_id, hci]
          rw [if_pos hi, henc]

theorem step_key_mono (s : St) (a : Act) : s.concerts_key ≤ (step s a).1.concerts_key := by
  cases a with
  | postCol req =>
    rcases post_concerts_shape s req with hs | ⟨idv, aa, vv, dt, hs⟩
    · simp only [step]; rw [hs]
    · simp only [step]; rw [hs]; exact key_le_bump _ _
  | postId i => simp only [step]; rw [post_concerts_id_state]
  | getAll l o f => simp only [step]; rw [get_concerts_state]
  | getOne i f => simp only [step]; rw [get_concerts_id_state]
  | putCol => exact le_refl _
  | putId i req =>
    rcases put_concerts_id_shape s i req with hs | ⟨aa, vv, dt, hs⟩ | ⟨j, aa, vv, dt, hci, hs⟩
    · simp only [step]; rw [hs]
    · simp only [step]; rw [hs]; exact key_le_bump _ _
    · simp only [step]; rw [hs]
  | patchCol => exact le_refl _
  | patchId i req =>
    rcases patch_concerts_id_shape s i req with hs | ⟨j, r2, hci, hid, hs⟩
    · simp only [step]; rw [hs]
    · simp only [step]; rw [hs]
  | delCol => exact le_refl _
  | delId i =>
    rcases del_concerts_id_shape s i with hs | ⟨j, hci, hs⟩
    · simp only [step]; rw [hs]
    · simp only [step]; rw [hs]

theorem keyBound_step (s : St) (a : Act) (h : keyBound s) : keyBound (step s a).1 := by
  cases a with
  | postCol req =>
    rcases post_concerts_shape s req with hs | ⟨idv, aa, vv, dt, hs⟩
    · simp only [step]; rw [hs]; exact h
    · simp only [step]; rw [hs]; exact keyBound_append idv aa vv dt h
  | postId i => simp only [step]; rw [post_concerts_id_state]; exact h
  | getAll l o f => simp only [step]; rw [get_concerts_state]; exact h
  | getOne i f => simp only [step]; rw [get_concerts_id_state]; exact h
  | putCol => exact h
  | putId i req =>
    rcases put_concerts_id_shape s i req with hs | ⟨aa, vv, dt, hs⟩ | ⟨j, aa, vv, dt, hci, hs⟩
    · simp only [step]; rw [hs]; exact h
    · simp only [step]; rw [hs]; exact keyBound_append i aa vv dt h
    · simp only [step]; rw [hs]; exact keyBound_set_concert aa vv dt hci h
  | patchCol => exact h
  | patchId i req =>
    rcases patch_concerts_id_shape s i req with hs | ⟨j, r2, hci, hid, hs⟩
    · simp only [step]; rw [hs]; exact h
    · simp only [step]; rw [hs]
      exact keyBound_set_same_id (content_index_some hci).2 hid h
  | delCol => exact h
  | delId i =>
    rcases del_concerts_id_shape s i with hs | ⟨j, hci, hs⟩
    · simp only [step]; rw [hs]; exact h
    · simp only [step]; rw [hs]; exact keyBound_erase j h

theorem run_keyBound (acts : List Act) : ∀ s : St, keyBound s → keyBound (run s acts) := by
  induction acts with
  | nil => intro s hs; exact hs
  | cons a rest ih => intro s hs; exact ih _ (keyBound_step s a hs)

theorem reachable_keyBound (s : St) (h : Reachable s) : keyBound s := by
  obtain ⟨acts, hacts⟩ := h
  rw [← hacts]
  exact run_keyBound acts st0 (by unfold keyBound; decide)

theorem put_201_key (s : St) (identity : Int) (req : Req)
    (h : (put_concerts_id s identity req).2 = .ok (okEmpty 201)) :
    identity < (put_concerts_id s identity req).1.concerts_key := by
  cases hj : req.is_json
  · simp [put_concerts_id, hj, errResp, okEmpty] at h
  · cases ha : req.artist
    · simp [put_concerts_id, hj, ha, errResp, okEmpty] at h
    · rename_i a
      cases hv : req.venue
      · simp [put_concerts_id, hj, ha, hv, errResp, okEmpty] at h
      · rename_i v
        cases hd : req.date
        · simp [put_concerts_id, hj, ha, hv, hd, errResp, okEmpty] at h
        · rename_i dstr
          cases hdt : fromisoformat dstr
          · simp [put_concerts_id, hj, ha, hv, hd, hdt] at h
          · rename_i dt
            cases hci : content_index s.concerts "id" (.vInt identity)
            · simp [put_concerts_id, hj, ha, hv, hd, hdt, hci] at h
            · rename_i o
              cases o
              · simp [put_concerts_id, hj, ha, hv, hd, hdt, hci]
                exact idv_lt_bump _ _
              · rename_i i
                by_cases hi : i = 0
                · simp [put_concerts_id, hj, ha, hv, hd, hdt, hci, hi]
                  exact idv_lt_bump _ _
                · simp [put_concerts_id, hj, ha, hv, hd, hdt, hci, hi, okEmpty] at h

theorem post_201_client_key (s : St) (req : Req) (k : Int) (r : Resp)
    (hid : req.id = some k) (ho : (post_concerts s req).2 = .ok r) (hst : r.status = 201) :
    k < (post_concerts s req).1.concerts_key := by
  cases hj : req.is_json
  · simp [post_concerts, hj] at ho
    rw [← ho] at hst
    simp [errResp] at hst
  · cases ha : req.artist
    · simp [post_concerts, hj, ha] at ho
      rw [← ho] at hst
      simp [errResp] at hst
    · rename_i a
      cases hv : req.venue
      · simp [post_concerts, hj, ha, hv] at ho
        rw [← ho] at hst
        simp [errResp] at hst
      · rename_i v
        cases hd : req.date
        · simp [post_concerts, hj, ha, hv, hd] at ho
          rw [← ho] at hst
          simp [errResp] at hst
        · rename_i dstr
          cases hdt : fromisoformat dstr
          · simp [post_concerts, hj, ha, hv, hd, hdt] at ho
            rw [← ho] at hst
            simp [errResp] at hst
          · rename_i dt
            cases hci : content_index s.concerts "id" (.vInt k)
            · simp [post_concerts, hj, ha, hv, hd, hdt, hid, hci] at ho
            · rename_i o
              cases o
              · simp [post_concerts, hj, ha, hv, hd, hdt, hid, hci]
                exact idv_lt_bump _ _
              · rename_i i
                by_cases hi : i = 0
                · simp [post_concerts, hj, ha, hv, hd, hdt, hid, hci, hi]
                  exact idv_lt_bump _ _
                · simp [post_concerts, hj, ha, hv, hd, hdt, hid, hci, hi] at ho
                  rw [← ho] at hst
                  simp [errResp] at hst

theorem post_noid_result (s : St) (req : Req) (a v d : String) (dt : PyDateTime)
    (hj : req.is_json = true) (ha : req.artist = some a) (hv : req.venue = some v)
    (hd : req.date = some d) (hdt : fromisoformat d = .ok dt) (hid : req.id = none) :
    post_concerts s req =
      (⟨s.concerts ++ [mkConcert s.concerts_key a v dt], s.concerts_key + 1⟩,
       .ok ⟨201, .empty, some (locHeader s.concerts_key)⟩) := by
  simp [post_concerts, hj, ha, hv, hd, hdt, hid]

/-- C7: in every reachable state the counter strictly dominates every id
in the store; the counter never decreases across a request; a POST or PUT
that accepts a client-supplied id (response 201) leaves the counter
strictly above that id; and two successive POSTs without an id append
records with the strictly increasing generated ids key and key+1. -/
theorem C7_counter_invariant :
    (∀ s : St, Reachable s →
       ∀ r ∈ s.concerts, ∀ n : Int, dictGet r "id" = some (.vInt n) → n < s.concerts_key)
    ∧ (∀ (s : St) (a : Act), s.concerts_key ≤ (step s a).1.concerts_key)
    ∧ (∀ (s : St) (req : Req) (k : Int) (r : Resp), req.id = some k →
         (post_concerts s req).2 = .ok r → r.status = 201 →
         k < (post_concerts s req).1.concerts_key)
    ∧ (∀ (s : St) (identity : Int) (req : Req),
         (put_concerts_id s identity req).2 = .ok (okEmpty 201) →
         identity < (put_concerts_id s identity req).1.concerts_key)
    ∧ (∀ (s : St) (req₁ req₂ : Req) (a₁ v₁ d₁ a₂ v₂ d₂ : String) (dt₁ dt₂ : PyDateTime),
         req₁.is_json = true → req₁.artist = some a₁ → req₁.venue = some v₁ →
         req₁.date = some d₁ → fromisoformat d₁ = .ok dt₁ → req₁.id = none →
         req₂.is_json = true → req₂.artist = some a₂ → req₂.venue = some v₂ →
         req₂.date = some d₂ → fromisoformat d₂ = .ok dt₂ → req₂.id = none →
         (post_concerts (post_concerts s req₁).1 req₂).1.concerts
             = s.concerts ++ [mkConcert s.concerts_key a₁ v₁ dt₁,
                              mkConcert (s.concerts_key + 1) a₂ v₂ dt₂]
           ∧ s.concerts_key < s.concerts_key + 1) := by
  refine ⟨?_, step_key_mono, post_201_client_key, put_201_key, ?_⟩
  · intro s hreach r hr n hn
    have hkb := reachable_keyBound s hreach
    simp only [keyBound, List.all_eq_true] at hkb
    have hb := hkb r hr
    unfold idLt at hb
    rw [hn] at hb
    simpa using hb
  · intro s req₁ req₂ a₁ v₁ d₁ a₂ v₂ d₂ dt₁ dt₂ hj1 ha1 hv1 hd1 hdt1 hid1
      hj2 ha2 hv2 hd2 hdt2 hid2
    rw [post_noid_result s req₁ a₁ v₁ d₁ dt₁ hj1 ha1 hv1 hd1 hdt1 hid1]
    rw [post_noid_result _ req₂ a₂ v₂ d₂ dt₂ hj2 ha2 hv2 hd2 hdt2 hid2]
    constructor
    · simp
    · omega

/-- POSTs without an id used to witness C7. -/
def c7ReqA : Req := ⟨true, some "A1", some "V1", some "2000-01-01T00:00:00", none⟩

def c7ReqB : Req := ⟨true, some "A2", some "V2", some "2001-01-01T00:00:00", none⟩

/-- A POST with the unused client-supplied id 7, used to witness C7. -/
def c7ReqId7 : Req := ⟨true, some "A7", some "V7", some "2002-01-01T00:00:00", some 7⟩

/-- Witness for C7 at the initial store. -/
theorem C7_counter_invariant_witness :
    (1 : Int) < st0.concerts_key
    ∧ st0.concerts_key ≤ (step st0 (Act.delId 2)).1.concerts_key
    ∧ (7 : Int) < (post_concerts st0 c7ReqId7).1.concerts_key
    ∧ (5 : Int) < (put_concerts_id st0 5 c1Req).1.concerts_key
    ∧ (post_concerts (post_concerts st0 c7ReqA).1 c7ReqB).1.concerts
        = st0.concerts ++ [mkConcert 3 "A1" "V1" ⟨"2000-01-01T00:00:00"⟩,
                           mkConcert 4 "A2" "V2" ⟨"2001-01-01T00:00:00"⟩] := by
  refine ⟨?_, ?_, ?_, ?_, ?_⟩
  · exact C7_counter_invariant.1 st0 ⟨[], rfl⟩
      (mkConcert 1 "Pink Floyd" "Werchter" ⟨"2017-07-20T20:00:00-02:00"⟩)
      (by simp [st0]) 1 rfl
  · exact C7_counter_invariant.2.1 st0 (Act.delId 2)
  · exact C7_counter_invariant.2.2.1 st0 c7ReqId7 7 ⟨201, .empty, some (locHeader 7)⟩
      rfl rfl rfl
  · exact C7_counter_invariant.2.2.2.1 st0 5 c1Req rfl
  · have h := C7_counter_invariant.2.2.2.2 st0 c7ReqA c7ReqB "A1" "V1" "2000-01-01T00:00:00"
      "A2" "V2" "2001-01-01T00:00:00" ⟨"2000-01-01T00:00:00"⟩ ⟨"2001-01-01T00:00:00"⟩
      rfl rfl rfl rfl rfl rfl rfl rfl rfl rfl rfl rfl
    simpa [st0] using h.1

/-! C9: the amended first-record semantics of `encode_date`. -/

/-- Specification-side conversion of one record: render each requested
field that holds a datetime as its iso string. -/
def isoRec (fs : List String) (r : Rec) : Rec :=
  fs.foldl (fun acc f =>
    match dictGet acc f with
    | some (.vDate d) => dictSet acc f (.vStr d.iso)
    | _ => acc) r

theorem convertFields_ok (fs : List String) (r : Rec) (hnd : fs.Nodup)
    (hall : ∀ f ∈ fs, ∃ d, dictGet r f = some (.vDate d)) :
    convertFields r fs = .ok (isoRec fs r) := by
  induction fs generalizing r with
  | nil => rfl
  | cons f fs' ih =>
    obtain ⟨d, hd⟩ := hall f (by simp)
    have hstep : convertField r f = .ok (dictSet r f (.vStr d.iso)) := by
      simp [convertField, hd]
    have hnotmem : f ∉ fs' := (List.nodup_cons.mp hnd).1
    have hall' : ∀ g ∈ fs', ∃ d2, dictGet (dictSet r f (.vStr d.iso)) g
        = some (.vDate d2) := by
      intro g hg
      have hne : f ≠ g := fun he => hnotmem (he ▸ hg)
      rw [dictGet_dictSet_ne _ _ _ _ hne]
      exact hall g (by simp [hg])
    have hiso : isoRec (f :: fs') r = isoRec fs' (dictSet r f (.vStr d.iso)) := by
      simp [isoRec, hd]
    rw [hiso]
    simp only [convertFields, hstep]
    exact ih _ (List.nodup_cons.mp hnd).2 hall'

theorem convertAll_map (l : List Rec) (fs : List String)
    (h : ∀ r ∈ l, convertFields r fs = .ok (isoRec fs r)) :
    convertAll l fs = .ok (l.map (isoRec fs)) := by
  induction l with
  | nil => rfl
  | cons r rest ih =>
    have hr := h r (by simp)
    have hrest := ih (fun r2 hr2 => h r2 (by simp [hr2]))
    simp only [convertAll, hr, hrest, List.map_cons]

/-- C9 (amended): when every record carries each requested field with a
datetime value, `encode_date` returns the fresh converted copy; when the
FIRST record lacks one of the requested fields, the whole list comes back
unconverted — no per-record check is made. -/
theorem C9_encode_date_first_record (l : List Rec) (fields : String)
    (hne : (fields == "") = false) :
    ((splitComma fields).Nodup →
      (∀ r ∈ l, ∀ f ∈ splitComma fields, ∃ d, dictGet r f = some (.vDate d)) →
      encode_date l fields = .ok (l.map (isoRec (splitComma fields))))
    ∧ (∀ r0 rest, l = r0 :: rest →
        (∃ f ∈ splitComma fields, hasKey r0 f = false) →
        encode_date l fields = .ok l) := by
  constructor
  · intro hnd hall
    unfold encode_date
    rw [hne]
    simp only [Bool.false_eq_true, if_false]
    cases hl : l with
    | nil => rfl
    | cons r0 rest =>
      have hchk : ((splitComma fields).all (fun f => hasKey r0 f)) = true := by
        rw [List.all_eq_true]
        intro f hf
        obtain ⟨d, hd⟩ := hall r0 (by simp [hl]) f hf
        rw [hasKey, hd]
        rfl
      simp only [hchk, if_true]
      rw [← hl]
      exact convertAll_map l _ (fun r hr =>
        convertFields_ok _ r hnd (fun f hf => hall r hr f hf))
  · intro r0 rest hl hmiss
    obtain ⟨f, hf, hfk⟩ := hmiss
    unfold encode_date
    rw [hne]
    simp only [Bool.false_eq_true, if_false]
    subst hl
    have hchk : ((splitComma fields).all (fun g => hasKey r0 g)) = false := by
      rcases hx : (splitComma fields).all (fun g => hasKey r0 g) with h | h
      · rfl
      · rw [List.all_eq_true] at hx
        rw [hx f hf] at hfk
        exact absurd hfk (by simp)
    simp only [hchk, Bool.false_eq_true, if_false]

/-- Witness for C9 on a concrete homogeneous two-record list: both dates
are rendered as iso strings. -/
theorem C9_encode_date_first_record_witness :
    encode_date
      [[("date", Val.vDate ⟨"2017-07-20T20:00:00-02:00"⟩)],
       [("date", Val.vDate ⟨"2022-09-26T15:00:00-02:00"⟩)]] "date"
      = .ok [[("date", Val.vStr "2017-07-20T20:00:00-02:00")],
             [("date", Val.vStr "2022-09-26T15:00:00-02:00")]] := by
  have hsp : splitComma "date" = ["date"] := rfl
  have h := (C9_encode_date_first_record
      [[("date", Val.vDate ⟨"2017-07-20T20:00:00-02:00"⟩)],
       [("date", Val.vDate ⟨"2022-09-26T15:00:00-02:00"⟩)]] "date" (by decide)).1
    (by rw [hsp]; exact List.nodup_singleton _)
    (by
      intro r hr f hf
      rw [hsp] at hf
      simp only [List.mem_singleton] at hf
      subst hf
      simp only [List.mem_cons, List.mem_singleton, List.not_mem_nil, or_false] at hr
      rcases hr with hr | hr <;> subst hr
      · exact ⟨⟨"2017-07-20T20:00:00-02:00"⟩, rfl⟩
      · exact ⟨⟨"2022-09-26T15:00:00-02:00"⟩, rfl⟩)
  rw [h]
  rfl

/-! Well-formed stores and crash-freedom of the read pipeline (for C4). -/

/-- A well-formed record: integer id, datetime date — the shape of every
record the handlers ever insert. -/
def wfRec (r : Rec) : Bool :=
  (match dictGet r "id" with
   | some (.vInt _) => true
   | _ => false)
  && (match dictGet r "date" with
      | some (.vDate _) => true
      | _ => false)

/-- A well-formed store. -/
def WF (s : St) : Bool :=
  s.concerts.all wfRec

theorem wfRec_id {r : Rec} (h : wfRec r = true) :
    ∃ n, dictGet r "id" = some (.vInt n) := by
  unfold wfRec at h
  rw [Bool.and_eq_true] at h
  cases hx : dictGet r "id" with
  | none => rw [hx] at h; simp at h
  | some v =>
    cases v with
    | vInt n => exact ⟨n, rfl⟩
    | vStr a => rw [hx] at h; simp at h
    | vDate d => rw [hx] at h; simp at h

theorem wfRec_date {r : Rec} (h : wfRec r = true) :
    ∃ d, dictGet r "date" = some (.vDate d) := by
  unfold wfRec at h
  rw [Bool.and_eq_true] at h
  cases hx : dictGet r "date" with
  | none => rw [hx] at h; simp at h
  | some v =>
    cases v with
    | vInt n => rw [hx] at h; simp at h
    | vStr a => rw [hx] at h; simp at h
    | vDate d => exact ⟨d, rfl⟩

theorem wfRec_hasKey_id {r : Rec} (h : wfRec r = true) : hasKey r "id" = true := by
  obtain ⟨n, hn⟩ := wfRec_id h
  rw [hasKey, hn]
  rfl

theorem wfRec_hasKey_date {r : Rec} (h : wfRec r = true) : hasKey r "date" = true := by
  obtain ⟨d, hd⟩ := wfRec_date h
  rw [hasKey, hd]
  rfl

theorem convertAll_date_ok (l : List Rec)
    (h : ∀ r ∈ l, ∃ d, dictGet r "date" = some (.vDate d)) :
    ∃ l2, convertAll l ["date"] = .ok l2 := by
  induction l with
  | nil => exact ⟨[], rfl⟩
  | cons r rest ih =>
    obtain ⟨d, hd⟩ := h r (by simp)
    obtain ⟨l2, hl2⟩ := ih (fun r2 hr2 => h r2 (by simp [hr2]))
    refine ⟨dictSet r "date" (.vStr d.iso) :: l2, ?_⟩
    simp only [convertAll, convertFields, convertField, hd, hl2]

theorem encode_date_ok (l : List Rec)
    (hval : ∀ r ∈ l, hasKey r "date" = true → ∃ d, dictGet r "date" = some (.vDate d))
    (huni : ∀ r ∈ l, ∀ r2 ∈ l, hasKey r "date" = hasKey r2 "date") :
    ∃ l2, encode_date l "date" = .ok l2 := by
  unfold encode_date
  rw [show (("date" : String) == "") = false from rfl]
  simp only [Bool.false_eq_true, if_false]
  cases l with
  | nil => exact ⟨[], rfl⟩
  | cons r0 rest =>
    have hsp : splitComma "date" = ["date"] := rfl
    rw [hsp]
    cases hk : hasKey r0 "date" with
    | false =>
      have hchk : (["date"].all (fun f => hasKey r0 f)) = false := by
        simp [hk]
      simp only [hchk, Bool.false_eq_true, if_false]
      exact ⟨r0 :: rest, rfl⟩
    | true =>
      have hchk : (["date"].all (fun f => hasKey r0 f)) = true := by
        simp [hk]
      simp only [hchk, if_true]
      apply convertAll_date_ok
      intro r hr
      apply hval r hr
      rw [huni r hr r0 (by simp)]
      exact hk

theorem limit_offset_subset {α : Type} (l : List α) (lim off : Int) :
    ∀ x ∈ limit_offset l lim off, x ∈ l := by
  intro x hx
  unfold limit_offset at hx
  split at hx
  · unfold pySlice at hx
    exact List.mem_of_mem_take (List.mem_of_mem_drop hx)
  · exact hx

theorem dictGet_filter_mem (fs : List String) (r : Rec) (k : String)
    (hk : fs.contains k = true) :
    dictGet (r.filter (fun p => fs.contains p.1)) k = dictGet r k := by
  induction r with
  | nil => rfl
  | cons p rest ih =>
    cases hp : fs.contains p.1 with
    | true =>
      by_cases hq : p.1 = k
      · simp only [List.filter_cons, hp, if_true]
        unfold dictGet
        rw [List.find?_cons_of_pos _ (by simp [hq]), List.find?_cons_of_pos _ (by simp [hq])]
      · simp only [List.filter_cons, hp, if_true]
        unfold dictGet
        rw [List.find?_cons_of_neg _ (by simp [hq]), List.find?_cons_of_neg _ (by simp [hq])]
        exact ih
    | false =>
      have hq : p.1 ≠ k := by
        intro he
        rw [he, hk] at hp
        exact absurd hp (by simp)
      simp only [List.filter_cons, hp, Bool.false_eq_true, if_false]
      rw [ih]
      unfold dictGet
      rw [List.find?_cons_of_neg _ (by simp [hq])]

theorem dictGet_filter_not_mem (fs : List String) (r : Rec) (k : String)
    (hk : fs.contains k = false) :
    dictGet (r.filter (fun p => fs.contains p.1)) k = none := by
  induction r with
  | nil => rfl
  | cons p rest ih =>
    cases hp : fs.contains p.1 with
    | true =>
      have hq : p.1 ≠ k := by
        intro he
        rw [← he, hp] at hk
        exact absurd hk (by simp)
      simp only [List.filter_cons, hp, if_true]
      unfold dictGet
      rw [List.find?_cons_of_neg _ (by simp [hq])]
      exact ih
    | false =>
      simp only [List.filter_cons, hp, Bool.false_eq_true, if_false]
      exact ih

theorem hasKey_filter (fs : List String) (r : Rec) (k : String) :
    hasKey (r.filter (fun p => fs.contains p.1)) k = (fs.contains k && hasKey r k) := by
  cases hk : fs.contains k with
  | true =>
    rw [hasKey, dictGet_filter_mem fs r k hk, Bool.true_and]
    rfl
  | false =>
    rw [hasKey, dictGet_filter_not_mem fs r k hk, Bool.false_and]
    rfl

theorem encode_pipeline_ok (base : List Rec) (hbwf : ∀ r ∈ base, wfRec r = true)
    (fields : Option String) :
    ∃ l2, encode_date (reduce_fields base fields) "date" = .ok l2 := by
  cases fields with
  | none =>
    simp only [reduce_fields]
    apply encode_date_ok
    · intro r hr _
      exact wfRec_date (hbwf r hr)
    · intro r hr r2 hr2
      rw [wfRec_hasKey_date (hbwf r hr), wfRec_hasKey_date (hbwf r2 hr2)]
  | some f =>
    cases hf : (f == "") with
    | true =>
      simp only [reduce_fields, hf, if_true]
      apply encode_date_ok
      · intro r hr _
        exact wfRec_date (hbwf r hr)
      · intro r hr r2 hr2
        rw [wfRec_hasKey_date (hbwf r hr), wfRec_hasKey_date (hbwf r2 hr2)]
    | false =>
      simp only [reduce_fields, hf, Bool.false_eq_true, if_false]
      apply encode_date_ok
      · intro r hr hk
        rw [List.mem_map] at hr
        obtain ⟨r0, hr0, hre⟩ := hr
        subst hre
        rw [hasKey_filter, Bool.and_eq_true] at hk
        obtain ⟨d, hd⟩ := wfRec_date (hbwf r0 hr0)
        refine ⟨d, ?_⟩
        rw [dictGet_filter_mem _ _ _ hk.1]
        exact hd
      · intro r hr r2 hr2
        rw [List.mem_map] at hr hr2
        obtain ⟨r0, hr0, hre⟩ := hr
        obtain ⟨r20, hr20, hre2⟩ := hr2
        subst hre
        subst hre2
        rw [hasKey_filter, hasKey_filter,
            wfRec_hasKey_date (hbwf r0 hr0), wfRec_hasKey_date (hbwf r20 hr20)]

theorem fromisoformat_error {s : String} {e : PyErr} (h : fromisoformat s = .error e) :
    e = .valueError := by
  unfold fromisoformat at h
  split at h
  · exact absurd h (by simp)
  · simp only [Except.error.injEq] at h
    exact h.symm

theorem getD_mem_of_lt {l : List Rec} {i : Nat} (h : i < l.length) :
    l.getD i [] ∈ l := by
  have he : l.getD i [] = l.get ⟨i, h⟩ := by
    simp [List.getD_eq_getElem?_getD, List.getElem?_eq_getElem h]
  rw [he]
  exact List.get_mem l i h

theorem post_concerts_err_frame (s : St) (req : Req)
    (hid : ∀ r ∈ s.concerts, hasKey r "id" = true) :
    (∀ r : Resp, (post_concerts s req).2 = .ok r → 400 ≤ r.status →
       (post_concerts s req).1 = s)
    ∧ (∀ e, (post_concerts s req).2 ≠ .crash e) := by
  cases hj : req.is_json
  · exact ⟨fun r _ _ => by simp [post_concerts, hj],
           fun e he => by simp [post_concerts, hj] at he⟩
  · cases ha : req.artist
    · exact ⟨fun r _ _ => by simp [post_concerts, hj, ha],
             fun e he => by simp [post_concerts, hj, ha] at he⟩
    · rename_i a
      cases hv : req.venue
      · exact ⟨fun r _ _ => by simp [post_concerts, hj, ha, hv],
               fun e he => by simp [post_concerts, hj, ha, hv] at he⟩
      · rename_i v
        cases hd : req.date
        · exact ⟨fun r _ _ => by simp [post_concerts, hj, ha, hv, hd],
                 fun e he => by simp [post_concerts, hj, ha, hv, hd] at he⟩
        · rename_i dstr
          cases hdt : fromisoformat dstr
          · exact ⟨fun r _ _ => by simp [post_concerts, hj, ha, hv, hd, hdt],
                   fun e he => by simp [post_concerts, hj, ha, hv, hd, hdt] at he⟩
          · rename_i dt
            cases hidq : req.id
            · constructor
              · intro r ho hst
                simp [post_concerts, hj, ha, hv, hd, hdt, hidq] at ho
                rw [← ho] at hst
                norm_num at hst
              · intro e he
                simp [post_concerts, hj, ha, hv, hd, hdt, hidq] at he
            · rename_i idv
              have hci := content_index_first_match s.concerts (.vInt idv) hid
              cases hfi : firstIdx (fun r => dictGet r "id" == some (.vInt idv)) s.concerts
              · constructor
                · intro r ho hst
                  simp [post_concerts, hj, ha, hv, hd, hdt, hidq, hci, hfi] at ho
                  rw [← ho] at hst
                  norm_num at hst
                · intro e he
                  simp [post_concerts, hj, ha, hv, hd, hdt, hidq, hci, hfi] at he
              · rename_i i
                by_cases hi : i = 0
                · constructor
                  · intro r ho hst
                    simp [post_concerts, hj, ha, hv, hd, hdt, hidq, hci, hfi, hi] at ho
                    rw [← ho] at hst
                    norm_num at hst
                  · intro e he
                    simp [post_concerts, hj, ha, hv, hd, hdt, hidq, hci, hfi, hi] at he
                · exact ⟨fun r _ _ => by
                      simp [post_concerts, hj, ha, hv, hd, hdt, hidq, hci, hfi, hi],
                    fun e he => by
                      simp [post_concerts, hj, ha, hv, hd, hdt, hidq, hci, hfi, hi] at he⟩

theorem put_concerts_id_err_frame (s : St) (identity : Int) (req : Req)
    (hid : ∀ r ∈ s.concerts, hasKey r "id" = true) :
    (∀ r : Resp, (put_concerts_id s identity req).2 = .ok r → 400 ≤ r.status →
       (put_concerts_id s identity req).1 = s)
    ∧ (∀ e, (put_concerts_id s identity req).2 = .crash e →
        e = .valueError ∧ (put_concerts_id s identity req).1 = s) := by
  cases hj : req.is_json
  · exact ⟨fun r _ _ => by simp [put_concerts_id, hj],
           fun e he => by simp [put_concerts_id, hj] at he⟩
  · cases ha : req.artist
    · exact ⟨fun r _ _ => by simp [put_concerts_id, hj, ha],
             fun e he => by simp [put_concerts_id, hj, ha] at he⟩
    · rename_i a
      cases hv : req.venue
      · exact ⟨fun r _ _ => by simp [put_concerts_id, hj, ha, hv],
               fun e he => by simp [put_concerts_id, hj, ha, hv] at he⟩
      · rename_i v
        cases hd : req.date
        · exact ⟨fun r _ _ => by simp [put_concerts_id, hj, ha, hv, hd],
                 fun e he => by simp [put_concerts_id, hj, ha, hv, hd] at he⟩
        · rename_i dstr
          cases hdt : fromisoformat dstr
          · rename_i e0
            constructor
            · intro r ho _
              simp [put_concerts_id, hj, ha, hv, hd, hdt] at ho
            · intro e he
              simp [put_concerts_id, hj, ha, hv, hd, hdt] at he
              exact ⟨he ▸ fromisoformat_error hdt, by simp [put_concerts_id, hj, ha, hv, hd, hdt]⟩
          · rename_i dt
            have hci := content_index_first_match s.concerts (.vInt identity) hid
            cases hfi : firstIdx (fun r => dictGet r "id" == some (.vInt identity)) s.concerts
            · constructor
              · intro r ho hst
                simp [put_concerts_id, hj, ha, hv, hd, hdt, hci, hfi, okEmpty] at ho
                rw [← ho] at hst
                norm_num at hst
              · intro e he
                simp [put_concerts_id, hj, ha, hv, hd, hdt, hci, hfi] at he
            · rename_i i
              by_cases hi : i = 0
              · constructor
                · intro r ho hst
                  simp [put_concerts_id, hj, ha, hv, hd, hdt, hci, hfi, hi, okEmpty] at ho
                  rw [← ho] at hst
                  norm_num at hst
                · intro e he
                  simp [put_concerts_id, hj, ha, hv, hd, hdt, hci, hfi, hi] at he
              · constructor
                · intro r ho hst
                  simp [put_concerts_id, hj, ha, hv, hd, hdt, hci, hfi, hi, okEmpty] at ho
                  rw [← ho] at hst
                  norm_num at hst
                · intro e he
                  simp [put_concerts_id, hj, ha, hv, hd, hdt, hci, hfi, hi] at he

theorem patch_concerts_id_err_frame (s : St) (identity : Int) (req : Req)
    (hid : ∀ r ∈ s.concerts, hasKey r "id" = true) :
    (∀ r : Resp, (patch_concerts_id s identity req).2 = .ok r → 400 ≤ r.status →
       (patch_concerts_id s identity req).1 = s)
    ∧ (∀ e, (patch_concerts_id s identity req).2 = .crash e →
        e = .valueError
        ∧ (patch_concerts_id s identity req).1.concerts_key = s.concerts_key
        ∧ (patch_concerts_id s identity req).1.concerts.length = s.concerts.length) := by
  cases hj : req.is_json
  · exact ⟨fun r _ _ => by simp [patch_concerts_id, hj],
           fun e he => by simp [patch_concerts_id, hj] at he⟩
  · have hci := content_index_first_match s.concerts (.vInt identity) hid
    cases hfi : firstIdx (fun r => dictGet r "id" == some (.vInt identity)) s.concerts
    · exact ⟨fun r _ _ => by simp [patch_concerts_id, hj, hci, hfi],
             fun e he => by simp [patch_concerts_id, hj, hci, hfi] at he⟩
    · rename_i i
      by_cases hi : i = 0
      · exact ⟨fun r _ _ => by simp [patch_concerts_id, hj, hci, hfi, hi],
               fun e he => by simp [patch_concerts_id, hj, hci, hfi, hi] at he⟩
      · cases hd : req.date
        · constructor
          · intro r ho hst
            simp [patch_concerts_id, hj, hci, hfi, hi, hd, okEmpty] at ho
            rw [← ho] at hst
            norm_num at hst
          · intro e he
            simp [patch_concerts_id, hj, hci, hfi, hi, hd] at he
        · rename_i dstr
          cases hdt : fromisoformat dstr
          · rename_i e0
            constructor
            · intro r ho _
              simp [patch_concerts_id, hj, hci, hfi, hi, hd, hdt] at ho
            · intro e he
              simp [patch_concerts_id, hj, hci, hfi, hi, hd, hdt] at he
              refine ⟨he ▸ fromisoformat_error hdt, ?_, ?_⟩
              · simp [patch_concerts_id, hj, hci, hfi, hi, hd, hdt]
              · simp [patch_concerts_id, hj, hci, hfi, hi, hd, hdt]
          · rename_i dt
            constructor
            · intro r ho hst
              simp [patch_concerts_id, hj, hci, hfi, hi, hd, hdt, okEmpty] at ho
              rw [← ho] at hst
              norm_num at hst
            · intro e he
              simp [patch_concerts_id, hj, hci, hfi, hi, hd, hdt] at he

theorem del_concerts_id_err_frame (s : St) (identity : Int) (hwf : WF s = true) :
    (∀ r : Resp, (del_concerts_id s identity).2 = .ok r → 400 ≤ r.status →
       (del_concerts_id s identity).1 = s)
    ∧ (∀ e, (del_concerts_id s identity).2 ≠ .crash e) := by
  have hid : ∀ r ∈ s.concerts, hasKey r "id" = true :=
    fun r hr => wfRec_hasKey_id ((List.all_eq_true.mp hwf) r hr)
  have hci := content_index_first_match s.concerts (.vInt identity) hid
  cases hfi : firstIdx (fun r => dictGet r "id" == some (.vInt identity)) s.concerts
  · exact ⟨fun r _ _ => by simp [del_concerts_id, hci, hfi],
           fun e he => by simp [del_concerts_id, hci, hfi] at he⟩
  · rename_i i
    by_cases hi : i = 0
    · exact ⟨fun r _ _ => by simp [del_concerts_id, hci, hfi, hi],
             fun e he => by simp [del_concerts_id, hci, hfi, hi] at he⟩
    · have hlt : i < s.concerts.length := by
        have : content_index s.concerts "id" (.vInt identity) = .ok (some i) := by
          rw [hci, hfi]
        exact (content_index_some this).2
      have hrw : wfRec (s.concerts.getD i []) = true :=
        (List.all_eq_true.mp hwf) _ (getD_mem_of_lt hlt)
      obtain ⟨l2, hl2⟩ := encode_date_ok [s.concerts.getD i []]
        (fun r hr _ => by
          rw [List.mem_singleton] at hr
          subst hr
          exact wfRec_date hrw)
        (fun r hr r2 hr2 => by
          rw [List.mem_singleton] at hr hr2
          rw [hr, hr2])
      constructor
      · intro r ho hst
        simp only [del_concerts_id, hci, hfi] at ho
        rw [if_pos hi, hl2] at ho
        simp only [Outcome.ok.injEq] at ho
        rw [← ho] at hst
        norm_num at hst
      · intro e he
        simp only [del_concerts_id, hci, hfi] at he
        rw [if_pos hi, hl2] at he
        exact absurd he (by simp)

theorem post_concerts_id_no_crash (s : St) (identity : Int)
    (hid : ∀ r ∈ s.concerts, hasKey r "id" = true) :
    ∀ e, (post_concerts_id s identity).2 ≠ .crash e := by
  intro e he
  have hci := content_index_first_match s.concerts (.vInt identity) hid
  cases hfi : firstIdx (fun r => dictGet r "id" == some (.vInt identity)) s.concerts
  · simp [post_concerts_id, hci, hfi] at he
  · rename_i i
    by_cases hi : i = 0 <;> simp [post_concerts_id, hci, hfi, hi] at he

theorem get_concerts_no_crash (s : St) (lim off : Int) (fields : Option String)
    (hwf : WF s = true) :
    ∀ e, (get_concerts s lim off fields).2 ≠ .crash e := by
  intro e he
  obtain ⟨l2, hl2⟩ := encode_pipeline_ok (limit_offset s.concerts lim off)
      (fun r hr => (List.all_eq_true.mp hwf) r (limit_offset_subset _ _ _ r hr)) fields
  simp [get_concerts, hl2] at he

theorem get_concerts_id_no_crash (s : St) (identity : Int) (fields : Option String)
    (hwf : WF s = true) :
    ∀ e, (get_concerts_id s identity fields).2 ≠ .crash e := by
  intro e he
  have hid : ∀ r ∈ s.concerts, hasKey r "id" = true :=
    fun r hr => wfRec_hasKey_id ((List.all_eq_true.mp hwf) r hr)
  have hci := content_index_first_match s.concerts (.vInt identity) hid
  cases hfi : firstIdx (fun r => dictGet r "id" == some (.vInt identity)) s.concerts
  · simp [get_concerts_id, hci, hfi] at he
  · rename_i i
    by_cases hi : i = 0
    · simp [get_concerts_id, hci, hfi, hi] at he
    · have hlt : i < s.concerts.length := by
        have hx : content_index s.concerts "id" (.vInt identity) = .ok (some i) := by
          rw [hci, hfi]
        exact (content_index_some hx).2
      obtain ⟨l2, hl2⟩ := encode_pipeline_ok [s.concerts.getD i []]
        (fun r hr => by
          rw [List.mem_singleton] at hr
          subst hr
          exact (List.all_eq_true.mp hwf) _ (getD_mem_of_lt hlt)) fields
      simp only [get_concerts_id, hci, hfi] at he
      rw [if_pos hi, hl2] at he
      exact absurd he (by simp)

/-- C4 (amended): on a well-formed store, every request that ends in an
HTTP error response (status 400 and above) leaves the store and the
counter exactly as they were; the only requests whose error is NOT mapped
to an HTTP response are PUT and PATCH on an item with an unparseable date
string, whose ValueError escapes the handler uncaught — a crashing PUT
leaves the state unchanged, while a crashing PATCH has already merged the
artist/venue fields in place (it still changes neither the counter nor
the number of records). -/
theorem C4_error_handling_amended (s : St) (a : Act) (hwf : WF s = true) :
    (∀ r : Resp, (step s a).2 = .ok r → 400 ≤ r.status → (step s a).1 = s)
    ∧ (∀ e : PyErr, (step s a).2 = .crash e →
        e = .valueError
        ∧ ((∃ i req, a = .putId i req ∧ (step s a).1 = s)
           ∨ (∃ i req, a = .patchId i req
               ∧ (step s a).1.concerts_key = s.concerts_key
               ∧ (step s a).1.concerts.length = s.concerts.length))) := by
  have hid : ∀ r ∈ s.concerts, hasKey r "id" = true :=
    fun r hr => wfRec_hasKey_id ((List.all_eq_true.mp hwf) r hr)
  cases a with
  | postCol req =>
    obtain ⟨p1, p2⟩ := post_concerts_err_frame s req hid
    exact ⟨p1, fun e he => absurd he (p2 e)⟩
  | postId i =>
    refine ⟨fun r _ _ => post_concerts_id_state s i,
            fun e he => absurd he (post_concerts_id_no_crash s i hid e)⟩
  | getAll lim off f =>
    refine ⟨fun r _ _ => get_concerts_state s lim off f,
            fun e he => absurd he (get_concerts_no_crash s lim off f hwf e)⟩
  | getOne i f =>
    refine ⟨fun r _ _ => get_concerts_id_state s i f,
            fun e he => absurd he (get_concerts_id_no_crash s i f hwf e)⟩
  | putCol =>
    exact ⟨fun r _ _ => rfl, fun e he => by simp [step, put_concerts] at he⟩
  | putId i req =>
    obtain ⟨p1, p2⟩ := put_concerts_id_err_frame s i req hid
    refine ⟨p1, fun e he => ?_⟩
    obtain ⟨hv, hs⟩ := p2 e he
    exact ⟨hv, Or.inl ⟨i, req, rfl, hs⟩⟩
  | patchCol =>
    exact ⟨fun r _ _ => rfl, fun e he => by simp [step, patch_concerts] at he⟩
  | patchId i req =>
    obtain ⟨p1, p2⟩ := patch_concerts_id_err_frame s i req hid
    refine ⟨p1, fun e he => ?_⟩
    obtain ⟨hv, hk, hl⟩ := p2 e he
    exact ⟨hv, Or.inr ⟨i, req, rfl, hk, hl⟩⟩
  | delCol =>
    exact ⟨fun r _ _ => rfl, fun e he => by simp [step, del_concerts] at he⟩
  | delId i =>
    obtain ⟨p1, p2⟩ := del_concerts_id_err_frame s i hwf
    exact ⟨p1, fun e he => absurd he (p2 e)⟩

/-- Witness for C4 on the initial store: DELETE of the absent id 99 ends
in a 404 error response and leaves the store exactly as it was. -/
theorem C4_error_handling_amended_witness :
    (step st0 (Act.delId 99)).1 = st0 := by
  have h := C4_error_handling_amended st0 (Act.delId 99) (by unfold WF; decide)
  exact h.1 (errResp 404 "Resource not found") rfl (by decide)

/-! C10: a heap model of the GET pipeline.  In Python the stored records
are mutable dict objects, and the lists the view helpers pass around hold
references to them, so a write through an alias (which `encode_date`
would perform without its `deepcopy` at src/main.py line 50) would change
the store.  Dicts live in a heap of cells; object identity is the cell
index; the GET handlers are re-embedded at this level with every write
made explicit, and the frame theorem shows the cells that existed before
the request never change. -/

/-- The heap of dict objects. -/
structure Heap where
  cells : List Rec
deriving DecidableEq, Repr

/-- A reference to a dict object (its cell index). -/
abbrev Ref := Nat

/-- Read the dict behind a reference. -/
def deref (h : Heap) (r : Ref) : Rec :=
  h.cells.getD r []

/-- Mutate the dict behind a reference in place. -/
def setCell (h : Heap) (r : Ref) (v : Rec) : Heap :=
  ⟨h.cells.set r v⟩

/-- Allocate fresh dict objects, returning their references. -/
def allocList (h : Heap) (vs : List Rec) : Heap × List Ref :=
  (⟨h.cells ++ vs⟩, List.range' h.cells.length vs.length)

/-- src/main.py lines 28-37 at heap level: projecting builds NEW dicts
(the comprehension at line 36); passing through returns the same
references. -/
def reduce_fields_h (h : Heap) (rs : List Ref) (fields : Option String) :
    Heap × List Ref :=
  match fields with
  | none => (h, rs)
  | some f =>
    if f == "" then (h, rs)
    else
      let fs := splitComma f
      allocList h (rs.map (fun r => (deref h r).filter (fun p => fs.contains p.1)))

/-- The inner loop of src/main.py lines 52-53 at heap level: write each
converted field back into the dict behind `r`. -/
def writeFields (h : Heap) (r : Ref) : List String → Heap × Except PyErr Unit
  | [] => (h, .ok ())
  | f :: fs =>
    match dictGet (deref h r) f with
    | none => (h, .error .keyError)
    | some (.vDate d) =>
      writeFields (setCell h r (dictSet (deref h r) f (.vStr d.iso))) r fs
    | some _ => (h, .error .attrError)

/-- The outer loop of src/main.py lines 51-53 at heap level. -/
def writeRecs (h : Heap) (rs : List Ref) (fs : List String) :
    Heap × Except PyErr Unit :=
  match rs with
  | [] => (h, .ok ())
  | r :: rest =>
    match writeFields h r fs with
    | (h2, .ok _) => writeRecs h2 rest fs
    | (h2, .error e) => (h2, .error e)

/-- src/main.py lines 40-54 at heap level: the `deepcopy` at line 50
allocates fresh cells for every record, and the conversion loop writes
ONLY into those fresh cells. -/
def encode_date_h (h : Heap) (rs : List Ref) (fields : String) :
    Heap × Except PyErr (List Ref) :=
  if fields == "" then (h, .error .assertError)
  else
    let fs := splitComma fields
    match rs with
    | [] => (h, .ok [])
    | r0 :: _ =>
      if fs.all (fun f => hasKey (deref h r0) f) then
        let alloc := allocList h (rs.map (deref h))
        match writeRecs alloc.1 alloc.2 fs with
        | (h2, .ok _) => (h2, .ok alloc.2)
        | (h2, .error e) => (h2, .error e)
      else (h, .ok rs)

/-- src/main.py lines 125-140 at heap level (`jsonify` reads the final
dicts). -/
def get_concerts_h (h : Heap) (store : List Ref) (limit offset : Int)
    (fields : Option String) : Heap × Except PyErr (List Rec) :=
  let t1 := limit_offset store limit offset
  let rf := reduce_fields_h h t1 fields
  match encode_date_h rf.1 rf.2 "date" with
  | (h2, .ok t3) => (h2, .ok (t3.map (deref h2)))
  | (h2, .error e) => (h2, .error e)

/-- src/main.py lines 143-160 at heap level.  `none` in the result models
the 404 branch. -/
def get_concerts_id_h (h : Heap) (store : List Ref) (identity : Int)
    (fields : Option String) : Heap × Except PyErr (Option Rec) :=
  match content_index (store.map (deref h)) "id" (.vInt identity) with
  | .error e => (h, .error e)
  | .ok (some i) =>
    if i ≠ 0 then
      let rf := reduce_fields_h h [store.getD i 0] fields
      match encode_date_h rf.1 rf.2 "date" with
      | (h2, .ok t3) => (h2, .ok (some (deref h2 (t3.getD 0 0))))
      | (h2, .error e) => (h2, .error e)
    else (h, .ok none)
  | .ok none => (h, .ok none)

/-- Cells below `n` read the same in `h2` as in `h`. -/
def PreservesBelow (n : Nat) (h h2 : Heap) : Prop :=
  ∀ j, j < n → deref h2 j = deref h j

theorem preservesBelow_refl (n : Nat) (h : Heap) : PreservesBelow n h h :=
  fun _ _ => rfl

theorem preservesBelow_trans {n : Nat} {h1 h2 h3 : Heap}
    (a : PreservesBelow n h1 h2) (b : PreservesBelow n h2 h3) :
    PreservesBelow n h1 h3 :=
  fun j hj => (b j hj).trans (a j hj)

theorem deref_append (h : Heap) (vs : List Rec) (j : Nat)
    (hj : j < h.cells.length) :
    deref ⟨h.cells ++ vs⟩ j = deref h j := by
  unfold deref
  rw [List.getD_eq_getElem?_getD, List.getD_eq_getElem?_getD, List.getElem?_append,
      if_pos hj]

theorem deref_set_ne (h : Heap) (r : Ref) (v : Rec) (j : Nat) (hj : j ≠ r) :
    deref (setCell h r v) j = deref h j := by
  unfold deref setCell
  rw [List.getD_eq_getElem?_getD, List.getD_eq_getElem?_getD]
  simp only []
  rw [List.getElem?_set_ne (fun he => hj he.symm)]

theorem writeFields_preserves (fs : List String) (h : Heap) (r : Ref) (n : Nat)
    (hr : n ≤ r) :
    PreservesBelow n h (writeFields h r fs).1
    ∧ (writeFields h r fs).1.cells.length = h.cells.length := by
  induction fs generalizing h with
  | nil => exact ⟨preservesBelow_refl _ _, rfl⟩
  | cons f fs ih =>
    unfold writeFields
    cases hx : dictGet (deref h r) f with
    | none =>
      simp only [hx]
      exact ⟨preservesBelow_refl _ _, trivial⟩
    | some v =>
      cases v with
      | vInt m =>
        simp only [hx]
        exact ⟨preservesBelow_refl _ _, trivial⟩
      | vStr a =>
        simp only [hx]
        exact ⟨preservesBelow_refl _ _, trivial⟩
      | vDate d =>
        simp only [hx]
        obtain ⟨hp, hl⟩ := ih (setCell h r (dictSet (deref h r) f (.vStr d.iso)))
        constructor
        · refine preservesBelow_trans ?_ hp
          intro j hj
          exact deref_set_ne h r _ j (by omega)
        · rw [hl]
          unfold setCell
          exact List.length_set _ _ _

theorem writeRecs_preserves (rs : List Ref) (fs : List String) (h : Heap) (n : Nat)
    (hrs : ∀ r ∈ rs, n ≤ r) :
    PreservesBelow n h (writeRecs h rs fs).1
    ∧ (writeRecs h rs fs).1.cells.length = h.cells.length := by
  induction rs generalizing h with
  | nil => exact ⟨preservesBelow_refl _ _, rfl⟩
  | cons r rest ih =>
    unfold writeRecs
    obtain ⟨hp, hl⟩ := writeFields_preserves fs h r n (hrs r (by simp))
    cases hw : writeFields h r fs with
    | mk h2 res =>
      rw [hw] at hp hl
      cases res with
      | ok u =>
        simp only [hw]
        obtain ⟨hp2, hl2⟩ := ih h2 (fun r2 hr2 => hrs r2 (by simp [hr2]))
        exact ⟨preservesBelow_trans hp hp2, hl2.trans hl⟩
      | error e =>
        simp only [hw]
        exact ⟨hp, hl⟩

theorem encode_date_h_preserves (h : Heap) (rs : List Ref) (fields : String)
    (n : Nat) (hn : n ≤ h.cells.length) :
    PreservesBelow n h (encode_date_h h rs fields).1
    ∧ n ≤ (encode_date_h h rs fields).1.cells.length := by
  unfold encode_date_h
  cases hq : (fields == "") with
  | true =>
    simp only [hq, if_true]
    exact ⟨preservesBelow_refl _ _, hn⟩
  | false =>
    simp only [hq, Bool.false_eq_true, if_false]
    cases rs with
    | nil => exact ⟨preservesBelow_refl _ _, hn⟩
    | cons r0 rest =>
      cases hchk : ((splitComma fields).all (fun f => hasKey (deref h r0) f)) with
      | false =>
        simp only [hchk, Bool.false_eq_true, if_false]
        exact ⟨preservesBelow_refl _ _, hn⟩
      | true =>
        simp only [hchk, if_true]
        have hcopy : ∀ r ∈ (allocList h ((r0 :: rest).map (deref h))).2, n ≤ r := by
          intro r hr
          unfold allocList at hr
          simp only at hr
          rw [List.mem_range'] at hr
          obtain ⟨k, hk, he⟩ := hr
          omega
        have halloc : PreservesBelow n h (allocList h ((r0 :: rest).map (deref h))).1 := by
          intro j hj
          exact deref_append h _ j (by omega)
        have hallen : (allocList h ((r0 :: rest).map (deref h))).1.cells.length
            = h.cells.length + ((r0 :: rest).map (deref h)).length := by
          unfold allocList
          simp
        obtain ⟨hp, hl⟩ := writeRecs_preserves (allocList h ((r0 :: rest).map (deref h))).2
          (splitComma fields) (allocList h ((r0 :: rest).map (deref h))).1 n hcopy
        cases hw : writeRecs (allocList h ((r0 :: rest).map (deref h))).1
            (allocList h ((r0 :: rest).map (deref h))).2 (splitComma fields) with
        | mk h2 res =>
          rw [hw] at hp hl
          cases res with
          | ok u =>
            simp only [hw]
            refine ⟨preservesBelow_trans halloc hp, ?_⟩
            rw [hl, hallen]
            omega
          | error e =>
            simp only [hw]
            refine ⟨preservesBelow_trans halloc hp, ?_⟩
            rw [hl, hallen]
            omega

theorem reduce_fields_h_preserves (h : Heap) (rs : List Ref)
    (fields : Option String) (n : Nat) (hn : n ≤ h.cells.length) :
    PreservesBelow n h (reduce_fields_h h rs fields).1
    ∧ n ≤ (reduce_fields_h h rs fields).1.cells.length := by
  cases fields with
  | none => exact ⟨preservesBelow_refl _ _, hn⟩
  | some f =>
    unfold reduce_fields_h
    cases hq : (f == "") with
    | true =>
      simp only [hq, if_true]
      exact ⟨preservesBelow_refl _ _, hn⟩
    | false =>
      simp only [hq, Bool.false_eq_true, if_false]
      constructor
      · intro j hj
        exact deref_append h _ j (by omega)
      · unfold allocList
        simp only [List.length_append]
        omega

theorem get_concerts_h_preserves (h : Heap) (store : List Ref)
    (limit offset : Int) (fields : Option String) (n : Nat)
    (hn : n ≤ h.cells.length) :
    PreservesBelow n h (get_concerts_h h store limit offset fields).1 := by
  unfold get_concerts_h
  obtain ⟨hp1, hl1⟩ := reduce_fields_h_preserves h (limit_offset store limit offset)
    fields n hn
  obtain ⟨hp2, _⟩ := encode_date_h_preserves
    (reduce_fields_h h (limit_offset store limit offset) fields).1
    (reduce_fields_h h (limit_offset store limit offset) fields).2 "date" n hl1
  cases hw : encode_date_h (reduce_fields_h h (limit_offset store limit offset) fields).1
      (reduce_fields_h h (limit_offset store limit offset) fields).2 "date" with
  | mk h2 res =>
    rw [hw] at hp2
    cases res with
    | ok t3 =>
      simp only [hw]
      exact preservesBelow_trans hp1 hp2
    | error e =>
      simp only [hw]
      exact preservesBelow_trans hp1 hp2

theorem get_concerts_id_h_preserves (h : Heap) (store : List Ref)
    (identity : Int) (fields : Option String) (n : Nat)
    (hn : n ≤ h.cells.length) :
    PreservesBelow n h (get_concerts_id_h h store identity fields).1 := by
  cases hci : content_index (store.map (deref h)) "id" (.vInt identity) with
  | error e =>
    simp only [get_concerts_id_h, hci]
    exact preservesBelow_refl _ _
  | ok o =>
    cases o with
    | none =>
      simp only [get_concerts_id_h, hci]
      exact preservesBelow_refl _ _
    | some i =>
      by_cases hi : i ≠ 0
      · simp only [get_concerts_id_h, hci]
        rw [if_pos hi]
        obtain ⟨hp1, hl1⟩ := reduce_fields_h_preserves h [store.getD i 0] fields n hn
        obtain ⟨hp2, _⟩ := encode_date_h_preserves
          (reduce_fields_h h [store.getD i 0] fields).1
          (reduce_fields_h h [store.getD i 0] fields).2 "date" n hl1
        cases hw : encode_date_h (reduce_fields_h h [store.getD i 0] fields).1
            (reduce_fields_h h [store.getD i 0] fields).2 "date" with
        | mk h2 res =>
          rw [hw] at hp2
          cases res with
          | ok t3 =>
            simp only [hw]
            exact preservesBelow_trans hp1 hp2
          | error e =>
            simp only [hw]
            exact preservesBelow_trans hp1 hp2
      · simp only [get_concerts_id_h, hci]
        rw [if_neg hi]
        exact preservesBelow_refl _ _

/-- C10: the GET handlers are read-only.  In the pure embedding both GET
handlers hand the store (records and counter) back untouched, and in the
heap embedding — where dict mutation through aliases is explicit and
encode_date's deepcopy allocates fresh cells before the conversion loop
writes — every dict cell that existed before the request still holds its
original record (in particular its datetime value) afterwards. -/
theorem C10_get_read_only (s : St) (h : Heap) (store : List Ref)
    (limit offset : Int) (fieldsQ : Option String) (identity : Int) (j : Ref)
    (hj : j < h.cells.length) :
    (get_concerts s limit offset fieldsQ).1 = s
    ∧ (get_concerts_id s identity fieldsQ).1 = s
    ∧ deref (get_concerts_h h store limit offset fieldsQ).1 j = deref h j
    ∧ deref (get_concerts_id_h h store identity fieldsQ).1 j = deref h j := by
  refine ⟨get_concerts_state s limit offset fieldsQ,
          get_concerts_id_state s identity fieldsQ, ?_, ?_⟩
  · exact get_concerts_h_preserves h store limit offset fieldsQ h.cells.length
      (le_refl _) j hj
  · exact get_concerts_id_h_preserves h store identity fieldsQ h.cells.length
      (le_refl _) j hj

/-- Witness for C10: after a full GET of the initial two-record store the
heap cells still hold the original records with datetime (not string)
dates. -/
theorem C10_get_read_only_witness :
    deref (get_concerts_h ⟨st0.concerts⟩ [0, 1] 0 0 none).1 0
        = mkConcert 1 "Pink Floyd" "Werchter" ⟨"2017-07-20T20:00:00-02:00"⟩
    ∧ deref (get_concerts_id_h ⟨st0.concerts⟩ [0, 1] 2 none).1 1
        = mkConcert 2 "Kraftwerk" "Domaine National de St Cloud" ⟨"2022-09-26T15:00:00-02:00"⟩ := by
  constructor
  · rw [(C10_get_read_only st0 ⟨st0.concerts⟩ [0, 1] 0 0 none 2 0 (by decide)).2.2.1]
    rfl
  · rw [(C10_get_read_only st0 ⟨st0.concerts⟩ [0, 1] 0 0 none 2 1 (by decide)).2.2.2]
    rfl
